import Mathlib

/-!
Verification of the Lucent document/rendering core against its
natural-language specification.

The development shallowly embeds two layers of the code base:

* `Lucent.*` — the `src/lucent` package: `item_schema.py` (validation and
  serialization of canvas items) and `texture_cache.py` (the rasterization
  cache keyed by a content version).
* `DV.*` — the top-level document model: `canvas_model.py` (item sequence,
  undo/redo command stacks, transactions) and `canvas_renderer.py`
  (paint order).

Python floats are modelled as rationals (`ℚ`), Python strings as `String`,
Python dictionaries as structures whose optional keys are `Option` fields.
Exceptions that the code can raise (and the code paths that catch them) are
modelled with `Except PyErr`.  Stacks are Lean lists with the top of the
stack at the head.
-/

/-- Exceptions relevant to the embedded code paths. -/
inductive PyErr where
  | indexError
  | valueError
  | attributeError
deriving DecidableEq, Repr

/-- A Python scalar value as it appears in the plain-data dictionaries the
model exchanges with its callers: a float/int, a string, or a boolean. -/
inductive PVal where
  | num (q : ℚ)
  | str (s : String)
  | bool (b : Bool)
deriving DecidableEq, Repr

namespace PVal

/-- Python `float(v)`.  Numbers convert to themselves, booleans to 0/1;
conversion of a string raises `ValueError` unless the string is numeric —
numeric-string parsing is not modelled, so every string is treated as the
raising case (no claim under verification depends on numeric strings). -/
def pfloat : PVal → Except PyErr ℚ
  | num q => .ok q
  | bool b => .ok (if b then 1 else 0)
  | str _ => .error .valueError

/-- Python `str(v)` (total; the textual form of a number is irrelevant to
every claim, only its injectivity on the string constructor matters). -/
def pstr : PVal → String
  | num q => toString q
  | str s => s
  | bool b => if b then ("True") else ("False")

/-- Python `bool(v)` truthiness. -/
def pbool : PVal → Bool
  | num q => q ≠ 0
  | str s => s ≠ ""
  | bool b => b

end PVal

/-- Python `float(d.get(key, dflt))` where the key holds `o` when present and
the default is the number `dflt`. -/
def pfloatD (o : Option PVal) (dflt : ℚ) : Except PyErr ℚ :=
  match o with
  | none => .ok dflt
  | some v => v.pfloat

/-- Python `str(d.get(key, dflt))` for a string default. -/
def pstrD (o : Option PVal) (dflt : String) : String :=
  match o with
  | none => dflt
  | some v => v.pstr

/-- Python `bool(d.get(key, dflt))` for a boolean default. -/
def pboolD (o : Option PVal) (dflt : Bool) : Bool :=
  match o with
  | none => dflt
  | some v => v.pbool

/-- Python `s.lower()`: lower-case every character. -/
def strLower (s : String) : String :=
  ⟨s.data.map Char.toLower⟩

namespace Lucent

/-! ### Geometry (`src/lucent/geometry.py`) -/

/-- Model of `QRectF`: x, y, width, height. -/
structure Rect4 where
  x : ℚ
  y : ℚ
  w : ℚ
  h : ℚ
deriving DecidableEq, Repr

/-- `QRectF.isEmpty()`: true when width or height is not positive. -/
def Rect4.isEmpty (r : Rect4) : Bool :=
  r.w ≤ 0 || r.h ≤ 0

/-- Fields of `RectGeometry` (after `__init__`, which clamps width and height
to be nonnegative). -/
structure RectG where
  x : ℚ
  y : ℚ
  width : ℚ
  height : ℚ
deriving DecidableEq, Repr

/-- `RectGeometry.__init__`: width/height clamped to `max 0`. -/
def mkRectG (x y w h : ℚ) : RectG :=
  ⟨x, y, max 0 w, max 0 h⟩

/-- `RectGeometry.get_bounds`. -/
def RectG.getBounds (g : RectG) : Rect4 :=
  ⟨g.x, g.y, g.width, g.height⟩

/-- Fields of `EllipseGeometry` (radii clamped nonnegative by `__init__`). -/
structure EllipseG where
  centerX : ℚ
  centerY : ℚ
  radiusX : ℚ
  radiusY : ℚ
deriving DecidableEq, Repr

/-- `EllipseGeometry.__init__`. -/
def mkEllipseG (cx cy rx ry : ℚ) : EllipseG :=
  ⟨cx, cy, max 0 rx, max 0 ry⟩

/-- `EllipseGeometry.get_bounds`. -/
def EllipseG.getBounds (g : EllipseG) : Rect4 :=
  ⟨g.centerX - g.radiusX, g.centerY - g.radiusY, 2 * g.radiusX, 2 * g.radiusY⟩

/-- A bezier control handle of a path point (absolute coordinates). -/
structure Handle where
  x : ℚ
  y : ℚ
deriving DecidableEq, Repr

/-- A normalized point of `PathGeometry.points`. -/
structure PathPoint where
  x : ℚ
  y : ℚ
  handleIn : Option Handle
  handleOut : Option Handle
deriving DecidableEq, Repr

/-- Fields of `PathGeometry`; the constructor requires at least two points,
which is recorded as a well-formedness hypothesis where needed. -/
structure PathG where
  points : List PathPoint
  closed : Bool
deriving DecidableEq, Repr

/-- `PathGeometry.get_bounds`.  The source delegates to Qt's
`QPainterPath.boundingRect()`; for handle-free paths that is exactly the
axis-aligned bounding box of the anchor points, which is what is modelled
here (exact bezier extrema are irrational and no claim depends on them). -/
def PathG.getBounds (g : PathG) : Rect4 :=
  match g.points with
  | [] => ⟨0, 0, 0, 0⟩
  | p :: ps =>
    let xs := (p :: ps).map PathPoint.x
    let ys := (p :: ps).map PathPoint.y
    let xmin := xs.foldl min p.x
    let xmax := xs.foldl max p.x
    let ymin := ys.foldl min p.y
    let ymax := ys.foldl max p.y
    ⟨xmin, ymin, xmax - xmin, ymax - ymin⟩

/-! ### Appearances

Modelled from the spec: `lucent/appearances.py` is not in the source tree
(only its importers are).  Per spec §3, `Fill` carries color, opacity in
[0,1] and visibility; `Stroke` carries color, width in [0,100], opacity in
[0,1] and visibility; `to_dict` emits exactly the fields `_parse_appearances`
reads back. -/

/-- Fill paint descriptor (spec §3). -/
structure Fill where
  color : String
  opacity : ℚ
  visible : Bool
deriving DecidableEq, Repr

/-- Stroke paint descriptor (spec §3). -/
structure Stroke where
  color : String
  width : ℚ
  opacity : ℚ
  visible : Bool
deriving DecidableEq, Repr

/-- An appearance list entry. -/
inductive Appearance where
  | fill (f : Fill)
  | stroke (s : Stroke)
deriving DecidableEq, Repr

/-! ### Canvas items (`src/lucent/canvas_items.py`) -/

/-- Fields of `Transform` (`src/lucent/transforms.py`); all default to the
identity transform. -/
structure Transform where
  translateX : ℚ := 0
  translateY : ℚ := 0
  rotate : ℚ := 0
  scaleX : ℚ := 1
  scaleY : ℚ := 1
  pivotX : ℚ := 0
  pivotY : ℚ := 0
deriving DecidableEq, Repr

/-- Shared fields of `ShapeItem` subclasses. -/
structure ShapeFields where
  appearances : List Appearance
  transform : Transform
  name : String
  parentId : Option String
  visible : Bool
  locked : Bool
deriving DecidableEq, Repr

/-- The item hierarchy: `RectangleItem`, `EllipseItem`, `PathItem` (shape
items with geometry + appearances), `LayerItem`, `GroupItem`, `TextItem`. -/
inductive CanvasItem where
  | rect (g : RectG) (f : ShapeFields)
  | ellipse (g : EllipseG) (f : ShapeFields)
  | path (g : PathG) (f : ShapeFields)
  | layer (name : String) (id : String) (visible : Bool) (locked : Bool)
  | group (name : String) (id : String) (parentId : Option String)
      (visible : Bool) (locked : Bool)
  | text (x y : ℚ) (txt : String) (fontFamily : String) (fontSize : ℚ)
      (textColor : String) (textOpacity : ℚ) (width : ℚ) (height : ℚ)
      (name : String) (parentId : Option String) (visible : Bool)
      (locked : Bool)
deriving DecidableEq, Repr

namespace CanvasItem

/-- `isinstance(item, (ShapeItem,))`: rectangle, ellipse or path. -/
def isShape : CanvasItem → Bool
  | rect _ _ | ellipse _ _ | path _ _ => true
  | _ => false

/-- `isinstance(item, TextItem)`. -/
def isText : CanvasItem → Bool
  | text _ _ _ _ _ _ _ _ _ _ _ _ _ => true
  | _ => false

/-- Organizational items (`LayerItem` / `GroupItem`). -/
def isOrganizational : CanvasItem → Bool
  | layer _ _ _ _ | group _ _ _ _ _ => true
  | _ => false

/-- Geometry bounds of a shape item, `item.geometry.get_bounds()`.  Only
shape items have a `geometry` attribute. -/
def geomBounds : CanvasItem → Option Rect4
  | rect g _ => some g.getBounds
  | ellipse g _ => some g.getBounds
  | path g _ => some g.getBounds
  | _ => none

/-- Shared shape fields, when the item is a shape. -/
def shapeFields : CanvasItem → Option ShapeFields
  | rect _ f | ellipse _ f | path _ f => some f
  | _ => none

/-- `ShapeItem.fill`: the first `Fill` in the appearance list. -/
def firstFill : List Appearance → Option Fill
  | [] => none
  | .fill f :: _ => some f
  | .stroke _ :: rest => firstFill rest

/-- `ShapeItem.stroke`: the first `Stroke` in the appearance list. -/
def firstStroke : List Appearance → Option Stroke
  | [] => none
  | .stroke s :: _ => some s
  | .fill _ :: rest => firstStroke rest

/-- The `fill` property read by the texture cache (`None` when the item has
no such attribute, i.e. is not a shape item). -/
def fillAttr (it : CanvasItem) : Option Fill :=
  (it.shapeFields).bind fun f => firstFill f.appearances

/-- The `stroke` property read by the texture cache. -/
def strokeAttr (it : CanvasItem) : Option Stroke :=
  (it.shapeFields).bind fun f => firstStroke f.appearances

/-- Replace the transform of a shape item (the spec-level mutation "only the
item's transform fields changed"); non-shape items have no transform. -/
def setTransform (it : CanvasItem) (t : Transform) : CanvasItem :=
  match it with
  | rect g f => rect g { f with transform := t }
  | ellipse g f => ellipse g { f with transform := t }
  | path g f => path g { f with transform := t }
  | other => other

end CanvasItem

end Lucent

namespace Lucent

/-! ### Item schema (`src/lucent/item_schema.py`)

Input dictionaries are modelled as structures whose `Option` fields record
whether a key is present.  `item_to_dict` produces the same structure with
every relevant field populated, so serialize → deserialize is literal
function composition. -/

/-- `_clamp_range`. -/
def clampRange (v lo hi : ℚ) : ℚ :=
  if v < lo then lo else if v > hi then hi else v

/-- `_clamp_min`. -/
def clampMin (v lo : ℚ) : ℚ :=
  if v ≥ lo then v else lo

/-- An entry of an incoming `appearances` list. -/
structure AppearIn where
  type : Option String := none
  color : Option PVal := none
  width : Option PVal := none
  opacity : Option PVal := none
  visible : Option PVal := none
deriving DecidableEq, Repr

/-- A validated appearance dictionary, as produced by `_parse_appearances`
(and by `Fill.to_dict` / `Stroke.to_dict`). -/
inductive AppearOut where
  | fillD (color : String) (opacity : ℚ) (visible : Bool)
  | strokeD (color : String) (width : ℚ) (opacity : ℚ) (visible : Bool)
deriving DecidableEq, Repr

/-- An incoming geometry sub-dictionary (`data.get("geometry", {})`). -/
structure GeomIn where
  x : Option PVal := none
  y : Option PVal := none
  width : Option PVal := none
  height : Option PVal := none
  centerX : Option PVal := none
  centerY : Option PVal := none
  radiusX : Option PVal := none
  radiusY : Option PVal := none
  points : Option (List PathPoint) := none
  closed : Option PVal := none
deriving DecidableEq, Repr

/-- An incoming item dictionary.  A missing `type` key is the empty string
(`data.get("type")` is falsy either way); `appearances = none` models a
missing key. -/
structure InDict where
  type : String := ""
  name : Option PVal := none
  id : Option String := none
  parentId : Option String := none
  visible : Option PVal := none
  locked : Option PVal := none
  geometry : Option GeomIn := none
  appearances : Option (List AppearIn) := none
  x : Option PVal := none
  y : Option PVal := none
  width : Option PVal := none
  height : Option PVal := none
  fontSize : Option PVal := none
  textOpacity : Option PVal := none
  text : Option PVal := none
  fontFamily : Option PVal := none
  textColor : Option PVal := none
deriving DecidableEq, Repr

/-- The two default appearances of `_parse_appearances`. -/
def defaultAppearances : List AppearOut :=
  [ .fillD ("#ffffff") 0 true, .strokeD ("#ffffff") 1 1 true ]

/-- One iteration of the `for a in appearances` loop of
`_parse_appearances`: a fill or stroke entry is normalized (with defaults and
clamping), any other entry produces nothing. -/
def parseAppearEntry (a : AppearIn) : Except PyErr (Option AppearOut) :=
  if a.type = some ("fill") then do
    let op ← pfloatD a.opacity 0
    .ok (some (.fillD (pstrD a.color ("#ffffff")) (clampRange op 0 1)
      (pboolD a.visible true)))
  else if a.type = some ("stroke") then do
    let w ← pfloatD a.width 1
    let op ← pfloatD a.opacity 1
    .ok (some (.strokeD (pstrD a.color ("#ffffff")) (clampRange w 0 100)
      (clampRange op 0 1) (pboolD a.visible true)))
  else
    .ok none

/-- The loop of `_parse_appearances` over a non-empty incoming list. -/
def parseAppearList : List AppearIn → Except PyErr (List AppearOut)
  | [] => .ok []
  | a :: rest => do
    let head ← parseAppearEntry a
    let tail ← parseAppearList rest
    match head with
    | some e => .ok (e :: tail)
    | none => .ok tail

/-- `_parse_appearances(data)`: a missing or empty list yields the two
default appearances, otherwise the entries are parsed in order. -/
def parseAppearances (d : InDict) : Except PyErr (List AppearOut) :=
  let aps := d.appearances.getD []
  if aps = [] then .ok defaultAppearances else parseAppearList aps

/-- `data.get("parentId") or None`: an empty string collapses to `None`. -/
def parentOrNone (o : Option String) : Option String :=
  match o with
  | some s => if s = "" then none else some s
  | none => none

/-- `str(data.get("name", ""))`. -/
def nameOf (d : InDict) : String :=
  pstrD d.name ""

/-- Common validated fields of shape dictionaries. -/
structure ValidCommon where
  name : String
  parentId : Option String
  visible : Bool
  locked : Bool
  appearances : List AppearOut
deriving DecidableEq, Repr

/-- The `name`/`parentId`/`visible`/`locked`/`appearances` part shared by
`validate_rectangle`, `validate_ellipse` and `validate_path`. -/
def validCommon (d : InDict) : Except PyErr ValidCommon := do
  let aps ← parseAppearances d
  .ok ⟨nameOf d, parentOrNone d.parentId, pboolD d.visible true,
    pboolD d.locked false, aps⟩

/-- `validate_rectangle`: geometry numeric fields with defaults, dimensions
clamped nonnegative. -/
def validateRectangle (d : InDict) :
    Except PyErr (ℚ × ℚ × ℚ × ℚ × ValidCommon) := do
  let g := d.geometry.getD {}
  let x ← pfloatD g.x 0
  let y ← pfloatD g.y 0
  let w ← pfloatD g.width 0
  let h ← pfloatD g.height 0
  let c ← validCommon d
  .ok (x, y, clampMin w 0, clampMin h 0, c)

/-- `validate_ellipse`. -/
def validateEllipse (d : InDict) :
    Except PyErr (ℚ × ℚ × ℚ × ℚ × ValidCommon) := do
  let g := d.geometry.getD {}
  let cx ← pfloatD g.centerX 0
  let cy ← pfloatD g.centerY 0
  let rx ← pfloatD g.radiusX 0
  let ry ← pfloatD g.radiusY 0
  let c ← validCommon d
  .ok (cx, cy, clampMin rx 0, clampMin ry 0, c)

/-- `validate_path`: at least two points required; each point keeps only its
anchor coordinates (`handleIn`/`handleOut` are dropped by the
normalization loop). -/
def validatePath (d : InDict) :
    Except PyErr (List PathPoint × Bool × ValidCommon) := do
  let g := d.geometry.getD {}
  let pts := (g.points.getD []).map fun p => PathPoint.mk p.x p.y none none
  if pts.length < 2 then .error .valueError else
  let c ← validCommon d
  .ok (pts, pboolD g.closed false, c)

/-- `validate_text`: clamps per spec ranges. -/
def validateText (d : InDict) :
    Except PyErr (ℚ × ℚ × ℚ × ℚ × ℚ × ℚ × String × String × String ×
      String × Option String × Bool × Bool) := do
  let x ← pfloatD d.x 0
  let y ← pfloatD d.y 0
  let fs ← pfloatD d.fontSize 16
  let topq ← pfloatD d.textOpacity 1
  let w ← pfloatD d.width 100
  let h ← pfloatD d.height 0
  .ok (x, y, clampRange fs 8 200, clampRange topq 0 1, clampMin w 1,
    clampMin h 0, pstrD d.text "", pstrD d.fontFamily ("Sans Serif"),
    pstrD d.textColor ("#ffffff"), nameOf d, parentOrNone d.parentId,
    pboolD d.visible true, pboolD d.locked false)

/-- Conversion of a validated appearance dictionary to an `Appearance`
object, as done inline in `parse_item` (`Fill(...) if a["type"]=="fill" else
Stroke(...)`). -/
def appearOfOut : AppearOut → Appearance
  | .fillD c o v => .fill ⟨c, o, v⟩
  | .strokeD c w o v => .stroke ⟨c, w, o, v⟩

/-- Placeholder for `str(uuid.uuid4())`: layer/group construction generates a
fresh id when none is supplied.  Freshness/uniqueness is not modelled; no
claim depends on the generated value. -/
def freshUuid : String := "uuid4"

/-- `parse_item`: `_parse_type` dispatch (unknown or missing type raises
`ItemSchemaError`, a `ValueError` subclass), then per-type validation and
construction. -/
def parseItem (d : InDict) : Except PyErr CanvasItem := do
  let ty := strLower d.type
  if ty = "" then .error .valueError
  else if ty = "rectangle" then do
    let (x, y, w, h, c) ← validateRectangle d
    .ok (.rect (mkRectG x y w h)
      ⟨c.appearances.map appearOfOut, {}, c.name, c.parentId, c.visible,
        c.locked⟩)
  else if ty = "ellipse" then do
    let (cx, cy, rx, ry, c) ← validateEllipse d
    .ok (.ellipse (mkEllipseG cx cy rx ry)
      ⟨c.appearances.map appearOfOut, {}, c.name, c.parentId, c.visible,
        c.locked⟩)
  else if ty = "path" then do
    let (pts, cl, c) ← validatePath d
    .ok (.path ⟨pts, cl⟩
      ⟨c.appearances.map appearOfOut, {}, c.name, c.parentId, c.visible,
        c.locked⟩)
  else if ty = "layer" then
    let lid := parentOrNone d.id
    .ok (.layer (nameOf d) (lid.getD freshUuid) (pboolD d.visible true)
      (pboolD d.locked false))
  else if ty = "group" then
    let gid := parentOrNone d.id
    .ok (.group (nameOf d) (gid.getD freshUuid) (parentOrNone d.parentId)
      (pboolD d.visible true) (pboolD d.locked false))
  else if ty = "text" then do
    let (x, y, fs, topq, w, h, txt, ff, tc, nm, pid, vis, lk) ←
      validateText d
    .ok (.text x y txt ff fs tc topq w h nm pid vis lk)
  else .error .valueError

/-- `Fill.to_dict` / `Stroke.to_dict` as incoming entries (modelled from the
spec: the appearance classes are not in the source tree; they serialize
exactly the fields `_parse_appearances` reads). -/
def appearToDict : Appearance → AppearIn
  | .fill f =>
    { type := some ("fill"), color := some (.str f.color),
      opacity := some (.num f.opacity), visible := some (.bool f.visible) }
  | .stroke s =>
    { type := some ("stroke"), color := some (.str s.color),
      width := some (.num s.width), opacity := some (.num s.opacity),
      visible := some (.bool s.visible) }

/-- `RectGeometry.to_dict`. -/
def rectGToDict (g : RectG) : GeomIn :=
  { x := some (.num g.x), y := some (.num g.y),
    width := some (.num g.width), height := some (.num g.height) }

/-- `EllipseGeometry.to_dict`. -/
def ellipseGToDict (g : EllipseG) : GeomIn :=
  { centerX := some (.num g.centerX), centerY := some (.num g.centerY),
    radiusX := some (.num g.radiusX), radiusY := some (.num g.radiusY) }

/-- `PathGeometry.to_dict` (includes handle data). -/
def pathGToDict (g : PathG) : GeomIn :=
  { points := some g.points, closed := some (.bool g.closed) }

/-- `item_to_dict`: the canonical serialized representation of an item. -/
def itemToDict : CanvasItem → InDict
  | .rect g f =>
    { type := "rectangle", name := some (.str f.name),
      parentId := f.parentId, visible := some (.bool f.visible),
      locked := some (.bool f.locked), geometry := some (rectGToDict g),
      appearances := some (f.appearances.map appearToDict) }
  | .ellipse g f =>
    { type := "ellipse", name := some (.str f.name),
      parentId := f.parentId, visible := some (.bool f.visible),
      locked := some (.bool f.locked), geometry := some (ellipseGToDict g),
      appearances := some (f.appearances.map appearToDict) }
  | .path g f =>
    { type := "path", name := some (.str f.name),
      parentId := f.parentId, visible := some (.bool f.visible),
      locked := some (.bool f.locked), geometry := some (pathGToDict g),
      appearances := some (f.appearances.map appearToDict) }
  | .layer nm lid vis lk =>
    { type := "layer", name := some (.str nm), id := some lid,
      visible := some (.bool vis), locked := some (.bool lk) }
  | .group nm gid pid vis lk =>
    { type := "group", name := some (.str nm), id := some gid,
      parentId := pid, visible := some (.bool vis),
      locked := some (.bool lk) }
  | .text x y txt ff fs tc topq w h nm pid vis lk =>
    { type := "text", name := some (.str nm), parentId := pid,
      visible := some (.bool vis), locked := some (.bool lk),
      x := some (.num x), y := some (.num y), width := some (.num w),
      height := some (.num h), fontSize := some (.num fs),
      textOpacity := some (.num topq), text := some (.str txt),
      fontFamily := some (.str ff), textColor := some (.str tc) }

end Lucent

namespace Lucent

/-! ### Texture cache (`src/lucent/texture_cache.py`) -/

/-- The version value of `TextureCache._get_item_version`.  The source XORs
Python hashes of the three components below; the XOR/hash step is modelled
by the tuple of components themselves (the claims under verification depend
only on which item data the version reads, not on hash collisions).  A
component is `none` when the corresponding attribute is absent or falsy
(`hasattr` guard / `item.fill` truthiness). -/
structure VersionData where
  geomBounds : Option Rect4
  fillColor : Option String
  strokeColorWidth : Option (String × ℚ)
deriving DecidableEq, Repr

/-- `TextureCache._get_item_version`: geometry bounds, first fill color,
first stroke color and width; nothing else (in particular no transform). -/
def getItemVersion (it : CanvasItem) : VersionData :=
  { geomBounds := it.geomBounds
    fillColor := (it.fillAttr).map Fill.color
    strokeColorWidth := (it.strokeAttr).map fun s => (s.color, s.width) }

/-- `int(q)`: truncation toward zero (`Int.tdiv` of the reduced numerator
by the denominator). -/
def pint (q : ℚ) : ℤ :=
  q.num.tdiv (q.den : ℤ)

/-- `TextureCacheEntry`: the rasterized image is represented by its pixel
dimensions (`QImage` pixel contents are produced by Qt painting, outside the
scope of the embedding), plus the untransformed geometry bounds and the
version recorded at rasterization time. -/
structure TextureCacheEntry where
  imageWidth : ℤ
  imageHeight : ℤ
  bounds : Rect4
  itemVersion : VersionData
deriving DecidableEq, Repr

/-- `TextureCache.PADDING`. -/
def PADDING : ℚ := 4

/-- `TextureCache.RENDER_SCALE`. -/
def RENDER_SCALE : ℚ := 2

/-- The `_cache` and `_item_versions` dictionaries, as association lists. -/
structure TextureCache where
  cache : List (String × TextureCacheEntry)
  itemVersions : List (String × VersionData)
deriving DecidableEq, Repr

/-- Dictionary lookup (`dict.get`). -/
def dictGet : List (String × α) → String → Option α
  | [], _ => none
  | p :: rest, k => if p.1 = k then some p.2 else dictGet rest k

/-- Dictionary update (`m[k] = v`): replace in place when the key is
present, append otherwise (Python dict insertion-order semantics). -/
def dictSet : List (String × α) → String → α → List (String × α)
  | [], k, v => [(k, v)]
  | p :: rest, k, v =>
    if p.1 = k then (k, v) :: rest else p :: dictSet rest k v

/-- `TextureCache._rasterize_item`.  Accessing `item.geometry` on a
`TextItem` raises `AttributeError` (`TextItem` defines no `geometry`
attribute); a shape with empty bounds yields `None`; otherwise an entry
sized from the padded, scaled bounds is produced. -/
def rasterizeItem (it : CanvasItem) (version : VersionData) :
    Except PyErr (Option TextureCacheEntry) :=
  if !(it.isShape || it.isText) then .ok none
  else
    match it.geomBounds with
    | none => .error .attributeError
    | some bounds =>
      if bounds.isEmpty then .ok none
      else
        let texWidth := max (pint ((bounds.w + PADDING * 2) * RENDER_SCALE)) 4
        let texHeight := max (pint ((bounds.h + PADDING * 2) * RENDER_SCALE)) 4
        .ok (some ⟨texWidth, texHeight, bounds, version⟩)

/-- `TextureCache.get_or_create`.  The result triple also reports whether
`_rasterize_item` was invoked (`true` on the miss path), which instruments
the "no re-rasterization" property; the flag does not influence the cache
state or the returned entry. -/
def getOrCreate (it : CanvasItem) (itemId : String) (c : TextureCache) :
    Except PyErr (Option TextureCacheEntry × TextureCache × Bool) :=
  if !(it.isShape || it.isText) then .ok (none, c, false)
  else
    let currentVersion := getItemVersion it
    match dictGet c.cache itemId with
    | some cached =>
      if cached.itemVersion = currentVersion then .ok (some cached, c, false)
      else do
        let entry ← rasterizeItem it currentVersion
        match entry with
        | some e =>
          .ok (some e, ⟨dictSet c.cache itemId e,
            dictSet c.itemVersions itemId currentVersion⟩, true)
        | none => .ok (none, c, true)
    | none => do
      let entry ← rasterizeItem it currentVersion
      match entry with
      | some e =>
        .ok (some e, ⟨dictSet c.cache itemId e,
          dictSet c.itemVersions itemId currentVersion⟩, true)
      | none => .ok (none, c, true)

/-- The empty texture cache (`TextureCache.__init__`). -/
def TextureCache.empty : TextureCache := ⟨[], []⟩

end Lucent


/-- Decidable equality of `Except` results, for evaluating the embedded
operations at concrete inputs. -/
instance exceptDecEq {ε α : Type} [DecidableEq ε] [DecidableEq α] :
    DecidableEq (Except ε α)
  | .ok a, .ok b =>
    if h : a = b then .isTrue (by rw [h])
    else .isFalse (by intro hc; cases hc; exact h rfl)
  | .error a, .error b =>
    if h : a = b then .isTrue (by rw [h])
    else .isFalse (by intro hc; cases hc; exact h rfl)
  | .ok _, .error _ => .isFalse (by intro hc; cases hc)
  | .error _, .ok _ => .isFalse (by intro hc; cases hc)

/-- Destructuring an `Except` bind that succeeds. -/
theorem exceptBind_ok {ε α β : Type} {m : Except ε α} {f : α → Except ε β}
    {b : β} : (m >>= f = Except.ok b) ↔
      ∃ a, m = Except.ok a ∧ f a = Except.ok b := by
  cases m <;> simp [Bind.bind, Except.bind]

namespace Lucent

/-- Appearance list of a parsed shape item. -/
def CanvasItem.appearancesOf (it : CanvasItem) : Option (List Appearance) :=
  (it.shapeFields).map ShapeFields.appearances

theorem parseAppearances_default {d : InDict}
    (h : d.appearances = none ∨ d.appearances = some []) :
    parseAppearances d = .ok defaultAppearances := by
  rcases h with h | h <;> simp [parseAppearances, h]

theorem validCommon_default {d : InDict}
    (h : d.appearances = none ∨ d.appearances = some []) :
    validCommon d = .ok ⟨nameOf d, parentOrNone d.parentId,
      pboolD d.visible true, pboolD d.locked false, defaultAppearances⟩ := by
  simp [validCommon, parseAppearances_default h, Bind.bind, Except.bind]

end Lucent

/-- C10: parsing a rectangle, ellipse or path dictionary whose appearances
entry is missing or empty yields exactly the two default appearances — a
fill (#ffffff, opacity 0, visible) followed by a stroke (#ffffff, width 1,
opacity 1, visible) — and appearance entries whose type is neither fill nor
stroke are silently dropped by the parsing loop. -/
theorem C10_default_appearances :
    (∀ (d : Lucent.InDict) (it : Lucent.CanvasItem),
        (strLower d.type = "rectangle" ∨ strLower d.type = "ellipse" ∨
          strLower d.type = "path") →
        (d.appearances = none ∨ d.appearances = some []) →
        Lucent.parseItem d = .ok it →
        it.appearancesOf = some
          [Lucent.Appearance.fill ⟨"#ffffff", 0, true⟩,
           Lucent.Appearance.stroke ⟨"#ffffff", 1, 1, true⟩]) ∧
    (∀ (a : Lucent.AppearIn) (rest : List Lucent.AppearIn),
        a.type ≠ some ("fill") → a.type ≠ some ("stroke") →
        Lucent.parseAppearList (a :: rest) = Lucent.parseAppearList rest) := by
  constructor
  · intro d it hty haps hparse
    have hvc := Lucent.validCommon_default haps
    rcases hty with h | h | h
    all_goals
      simp only [Lucent.parseItem, h, reduceIte, String.reduceEq,
        exceptBind_ok] at hparse
    · obtain ⟨⟨x, y, w, hh, c⟩, hval, hmk⟩ := hparse
      simp only [Lucent.validateRectangle, exceptBind_ok] at hval
      obtain ⟨a1, h1, a2, h2, a3, h3, a4, h4, a5, h5, hok⟩ := hval
      rw [hvc] at h5
      cases h5
      cases hok
      cases hmk
      rfl
    · obtain ⟨⟨x, y, w, hh, c⟩, hval, hmk⟩ := hparse
      simp only [Lucent.validateEllipse, exceptBind_ok] at hval
      obtain ⟨a1, h1, a2, h2, a3, h3, a4, h4, a5, h5, hok⟩ := hval
      rw [hvc] at h5
      cases h5
      cases hok
      cases hmk
      rfl
    · obtain ⟨⟨pts, cl, c⟩, hval, hmk⟩ := hparse
      rw [Lucent.validatePath] at hval
      split at hval
      · cases hval
      · simp only [exceptBind_ok] at hval
        obtain ⟨a5, h5, hok⟩ := hval
        rw [hvc] at h5
        cases h5
        cases hok
        cases hmk
        rfl
  · intro a rest h1 h2
    simp only [Lucent.parseAppearList, Lucent.parseAppearEntry, h1, h2,
      reduceIte, Bind.bind, Except.bind]
    cases Lucent.parseAppearList rest <;> rfl

/-- Witness for C10 at concrete inputs: an appearance-free rectangle
dictionary parses to the two default appearances, and an unknown-type
appearance entry is dropped. -/
theorem C10_default_appearances_witness :
    (Lucent.CanvasItem.rect (Lucent.mkRectG 0 0 0 0)
        ⟨[Lucent.Appearance.fill ⟨"#ffffff", 0, true⟩,
          Lucent.Appearance.stroke ⟨"#ffffff", 1, 1, true⟩], {}, "", none,
          true, false⟩).appearancesOf =
      some [Lucent.Appearance.fill ⟨"#ffffff", 0, true⟩,
        Lucent.Appearance.stroke ⟨"#ffffff", 1, 1, true⟩] ∧
    Lucent.parseAppearList [{ type := some ("shadow") }] =
      Lucent.parseAppearList [] := by
  constructor
  · exact C10_default_appearances.1 { type := "rectangle" } _
      (Or.inl (by decide)) (Or.inl rfl) rfl
  · exact C10_default_appearances.2 { type := some ("shadow") } []
      (by decide) (by decide)

namespace Lucent

/-! ### Serialization round trip (C8) -/

/-- The validated-dictionary form of an in-memory appearance. -/
def outOf : Appearance → AppearOut
  | .fill f => .fillD f.color f.opacity f.visible
  | .stroke s => .strokeD s.color s.width s.opacity s.visible

/-- Well-formedness of an appearance as established by the constructors of
`Fill` and `Stroke` (spec §3 value ranges). -/
def appearWF : Appearance → Bool
  | .fill f => 0 ≤ f.opacity && f.opacity ≤ 1
  | .stroke s => 0 ≤ s.width && s.width ≤ 100 && 0 ≤ s.opacity &&
      s.opacity ≤ 1

/-- A `parentId` (or a layer/group id option) never holds the empty string
in a constructed item. -/
def pidWF : Option String → Bool
  | some s => s ≠ ""
  | none => true

/-- Well-formedness of shared shape fields. -/
def shapeWF (f : ShapeFields) : Bool :=
  f.appearances.all appearWF && pidWF f.parentId

/-- Constructor-reachable items: geometry clamps hold, appearance values are
in range, layer/group ids are nonempty (the constructors substitute a fresh
uuid for a falsy id), path items have at least two points. -/
def itemWF : CanvasItem → Bool
  | .rect g f => 0 ≤ g.width && 0 ≤ g.height && shapeWF f
  | .ellipse g f => 0 ≤ g.radiusX && 0 ≤ g.radiusY && shapeWF f
  | .path g f => 2 ≤ g.points.length && shapeWF f
  | .layer _ lid _ _ => lid ≠ ""
  | .group _ gid pid _ _ => gid ≠ "" && pidWF pid
  | .text _ _ _ _ fs _ topq w h _ pid _ _ =>
      8 ≤ fs && fs ≤ 200 && 0 ≤ topq && topq ≤ 1 && 1 ≤ w && 0 ≤ h &&
        pidWF pid

/-- What the serialize → deserialize round trip preserves of an appearance
list: an empty list is replaced by the two parse-time defaults. -/
def normalizeAppearances (l : List Appearance) : List Appearance :=
  if l = [] then defaultAppearances.map appearOfOut else l

/-- Round-trip normalization of shape fields: the transform is reset to the
identity (it is not serialized) and an empty appearance list becomes the
default pair. -/
def normalizeShapeFields (f : ShapeFields) : ShapeFields :=
  ⟨normalizeAppearances f.appearances, {}, f.name, f.parentId, f.visible,
    f.locked⟩

/-- Round-trip normalization of a path geometry: bezier handles are dropped
by `validate_path`. -/
def stripHandles (g : PathG) : PathG :=
  ⟨g.points.map fun p => ⟨p.x, p.y, none, none⟩, g.closed⟩

/-- The exact effect of serialize → deserialize on an item. -/
def roundTripNormalize : CanvasItem → CanvasItem
  | .rect g f => .rect g (normalizeShapeFields f)
  | .ellipse g f => .ellipse g (normalizeShapeFields f)
  | .path g f => .path (stripHandles g) (normalizeShapeFields f)
  | other => other

theorem clampMin_eq {v lo : ℚ} (h : lo ≤ v) : clampMin v lo = v := by
  simp [clampMin, h]

theorem clampRange_eq {v lo hi : ℚ} (h1 : lo ≤ v) (h2 : v ≤ hi) :
    clampRange v lo hi = v := by
  simp [clampRange, not_lt.2 h1, not_lt.2 h2]

theorem appearOfOut_outOf (a : Appearance) : appearOfOut (outOf a) = a := by
  cases a <;> rfl

theorem parseAppearEntry_toDict {a : Appearance} (h : appearWF a = true) :
    parseAppearEntry (appearToDict a) = .ok (some (outOf a)) := by
  cases a with
  | fill f =>
    simp only [appearWF, Bool.and_eq_true, decide_eq_true_eq] at h
    simp [parseAppearEntry, appearToDict, outOf, pstrD, pboolD, pfloatD,
      PVal.pstr, PVal.pbool, PVal.pfloat, Bind.bind, Except.bind,
      clampRange_eq h.1 h.2]
  | stroke s =>
    simp only [appearWF, Bool.and_eq_true, decide_eq_true_eq] at h
    simp [parseAppearEntry, appearToDict, outOf, pstrD, pboolD, pfloatD,
      PVal.pstr, PVal.pbool, PVal.pfloat, Bind.bind, Except.bind,
      clampRange_eq h.1.1.1 h.1.1.2, clampRange_eq h.1.2 h.2]

theorem parseAppearList_toDict {l : List Appearance}
    (h : l.all appearWF = true) :
    parseAppearList (l.map appearToDict) = .ok (l.map outOf) := by
  induction l with
  | nil => rfl
  | cons a rest ih =>
    simp only [List.all_cons, Bool.and_eq_true] at h
    simp [parseAppearList, parseAppearEntry_toDict h.1, ih h.2, Bind.bind,
      Except.bind]

theorem map_appearOfOut_outOf (l : List Appearance) :
    (l.map outOf).map appearOfOut = l := by
  induction l with
  | nil => rfl
  | cons a rest ih => simp [ih, appearOfOut_outOf]

theorem map_appearOfOut_outOf_comp (l : List Appearance) :
    l.map (appearOfOut ∘ outOf) = l := by
  induction l with
  | nil => rfl
  | cons a rest ih => simp [Function.comp, appearOfOut_outOf] at ih ⊢
                      exact ih

/-- Result of `_parse_appearances` on the serialization of appearance
list `l`. -/
def appsOut (l : List Appearance) : List AppearOut :=
  if l = [] then defaultAppearances else l.map outOf

theorem parseAppearances_toDict {d : InDict} {l : List Appearance}
    (hd : d.appearances = some (l.map appearToDict))
    (h : l.all appearWF = true) :
    parseAppearances d = .ok (appsOut l) := by
  cases l with
  | nil => simp [parseAppearances, hd, appsOut]
  | cons a rest =>
    rw [parseAppearances, hd]
    simp only [Option.getD_some]
    rw [if_neg (by simp), parseAppearList_toDict h, appsOut,
      if_neg (by simp)]

theorem appsOut_map (l : List Appearance) :
    (appsOut l).map appearOfOut = normalizeAppearances l := by
  cases l with
  | nil => rfl
  | cons a rest =>
    simp [appsOut, normalizeAppearances, appearOfOut_outOf,
      map_appearOfOut_outOf_comp]

theorem pidWF_parentOrNone {p : Option String} (h : pidWF p = true) :
    parentOrNone p = p := by
  cases p with
  | none => rfl
  | some s =>
    simp only [pidWF, decide_eq_true_eq] at h
    simp [parentOrNone, h]

end Lucent

namespace Lucent

theorem mkRectG_eq {g : RectG} (hw : 0 ≤ g.width) (hh : 0 ≤ g.height) :
    mkRectG g.x g.y g.width g.height = g := by
  cases g
  simp_all [mkRectG, max_eq_right]

theorem mkEllipseG_eq {g : EllipseG} (hx : 0 ≤ g.radiusX)
    (hy : 0 ≤ g.radiusY) :
    mkEllipseG g.centerX g.centerY g.radiusX g.radiusY = g := by
  cases g
  simp_all [mkEllipseG, max_eq_right]

theorem strLower_rectangle : strLower "rectangle" = "rectangle" := by decide

theorem strLower_ellipse : strLower "ellipse" = "ellipse" := by decide

theorem strLower_path : strLower "path" = "path" := by decide

theorem strLower_layer : strLower "layer" = "layer" := by decide

theorem strLower_group : strLower "group" = "group" := by decide

theorem strLower_text : strLower "text" = "text" := by decide

theorem validCommon_toDict_rect {g : RectG} {f : ShapeFields}
    (happ : f.appearances.all appearWF = true) :
    validCommon (itemToDict (.rect g f)) =
      .ok ⟨f.name, parentOrNone f.parentId, f.visible, f.locked,
        appsOut f.appearances⟩ := by
  have hpa : parseAppearances (itemToDict (.rect g f)) =
      .ok (appsOut f.appearances) := parseAppearances_toDict rfl happ
  simp only [itemToDict] at hpa
  simp [validCommon, hpa, Bind.bind, Except.bind, nameOf, pstrD, PVal.pstr,
    pboolD, PVal.pbool, itemToDict]

theorem validCommon_toDict_ellipse {g : EllipseG} {f : ShapeFields}
    (happ : f.appearances.all appearWF = true) :
    validCommon (itemToDict (.ellipse g f)) =
      .ok ⟨f.name, parentOrNone f.parentId, f.visible, f.locked,
        appsOut f.appearances⟩ := by
  have hpa : parseAppearances (itemToDict (.ellipse g f)) =
      .ok (appsOut f.appearances) := parseAppearances_toDict rfl happ
  simp only [itemToDict] at hpa
  simp [validCommon, hpa, Bind.bind, Except.bind, nameOf, pstrD, PVal.pstr,
    pboolD, PVal.pbool, itemToDict]

theorem validCommon_toDict_path {g : PathG} {f : ShapeFields}
    (happ : f.appearances.all appearWF = true) :
    validCommon (itemToDict (.path g f)) =
      .ok ⟨f.name, parentOrNone f.parentId, f.visible, f.locked,
        appsOut f.appearances⟩ := by
  have hpa : parseAppearances (itemToDict (.path g f)) =
      .ok (appsOut f.appearances) := parseAppearances_toDict rfl happ
  simp only [itemToDict] at hpa
  simp [validCommon, hpa, Bind.bind, Except.bind, nameOf, pstrD, PVal.pstr,
    pboolD, PVal.pbool, itemToDict]

end Lucent

/-- C8 counterexample: a rectangle item carrying a non-identity transform
(rotate 45) does not round trip — `item_to_dict` never serializes the
transform, so `parse_item` rebuilds the item with the identity transform,
and the `transform.rotate` field value is not preserved. -/
theorem C8_roundtrip_counterexample :
    Lucent.parseItem (Lucent.itemToDict
        (Lucent.CanvasItem.rect ⟨0, 0, 10, 10⟩
          ⟨[Lucent.Appearance.fill ⟨"#ff0000", 1, true⟩],
            { rotate := 45 }, "r", none, true, false⟩)) =
      .ok (Lucent.CanvasItem.rect ⟨0, 0, 10, 10⟩
          ⟨[Lucent.Appearance.fill ⟨"#ff0000", 1, true⟩],
            {}, "r", none, true, false⟩) ∧
    Lucent.CanvasItem.rect (⟨0, 0, 10, 10⟩ : Lucent.RectG)
          ⟨[Lucent.Appearance.fill ⟨"#ff0000", 1, true⟩],
            {}, "r", none, true, false⟩ ≠
      Lucent.CanvasItem.rect ⟨0, 0, 10, 10⟩
          ⟨[Lucent.Appearance.fill ⟨"#ff0000", 1, true⟩],
            { rotate := 45 }, "r", none, true, false⟩ := by
  exact ⟨rfl, by decide⟩

/-- C8 (amended): serialize → deserialize reproduces every field value of a
constructor-reachable item, except that (a) a shape item's transform is not
serialized and comes back as the identity, (b) a shape item's empty
appearance list comes back as the two parse-time defaults, and (c) bezier
handle data of path points is dropped; layer, group and text items (and
layer/group ids) round trip exactly. -/
theorem C8_roundtrip_amended :
    ∀ it : Lucent.CanvasItem, Lucent.itemWF it = true →
      Lucent.parseItem (Lucent.itemToDict it) =
        .ok (Lucent.roundTripNormalize it) := by
  intro it hwf
  cases it with
  | rect g f =>
    simp only [Lucent.itemWF, Lucent.shapeWF, Bool.and_eq_true,
      decide_eq_true_eq] at hwf
    obtain ⟨⟨hw, hh⟩, happ, hpid⟩ := hwf
    have hvc := @Lucent.validCommon_toDict_rect g f happ
    simp only [Lucent.itemToDict, Lucent.rectGToDict] at hvc
    have hvr : Lucent.validateRectangle (Lucent.itemToDict (.rect g f)) =
        .ok (g.x, g.y, g.width, g.height,
          ⟨f.name, Lucent.parentOrNone f.parentId, f.visible, f.locked,
            Lucent.appsOut f.appearances⟩) := by
      simp [Lucent.validateRectangle, Lucent.itemToDict, hvc, Bind.bind,
        Except.bind, pfloatD, PVal.pfloat, Lucent.rectGToDict,
        Lucent.clampMin_eq hw, Lucent.clampMin_eq hh]
    simp only [Lucent.itemToDict] at hvr
    simp [Lucent.parseItem, Lucent.itemToDict, Lucent.strLower_rectangle, hvr,
      Bind.bind, Except.bind, Lucent.roundTripNormalize,
      Lucent.normalizeShapeFields, Lucent.appsOut_map,
      Lucent.mkRectG_eq hw hh, Lucent.pidWF_parentOrNone hpid]
  | ellipse g f =>
    simp only [Lucent.itemWF, Lucent.shapeWF, Bool.and_eq_true,
      decide_eq_true_eq] at hwf
    obtain ⟨⟨hx, hy⟩, happ, hpid⟩ := hwf
    have hvc := @Lucent.validCommon_toDict_ellipse g f happ
    simp only [Lucent.itemToDict, Lucent.ellipseGToDict] at hvc
    have hvr : Lucent.validateEllipse (Lucent.itemToDict (.ellipse g f)) =
        .ok (g.centerX, g.centerY, g.radiusX, g.radiusY,
          ⟨f.name, Lucent.parentOrNone f.parentId, f.visible, f.locked,
            Lucent.appsOut f.appearances⟩) := by
      simp [Lucent.validateEllipse, Lucent.itemToDict, hvc, Bind.bind,
        Except.bind, pfloatD, PVal.pfloat, Lucent.ellipseGToDict,
        Lucent.clampMin_eq hx, Lucent.clampMin_eq hy]
    simp only [Lucent.itemToDict] at hvr
    simp [Lucent.parseItem, Lucent.itemToDict, Lucent.strLower_ellipse, hvr,
      Bind.bind, Except.bind, Lucent.roundTripNormalize,
      Lucent.normalizeShapeFields, Lucent.appsOut_map,
      Lucent.mkEllipseG_eq hx hy, Lucent.pidWF_parentOrNone hpid]
  | path g f =>
    simp only [Lucent.itemWF, Lucent.shapeWF, Bool.and_eq_true,
      decide_eq_true_eq] at hwf
    obtain ⟨hlen, happ, hpid⟩ := hwf
    have hvc := @Lucent.validCommon_toDict_path g f happ
    simp only [Lucent.itemToDict, Lucent.pathGToDict] at hvc
    have hvr : Lucent.validatePath (Lucent.itemToDict (.path g f)) =
        .ok ((Lucent.stripHandles g).points, g.closed,
          ⟨f.name, Lucent.parentOrNone f.parentId, f.visible, f.locked,
            Lucent.appsOut f.appearances⟩) := by
      rw [Lucent.validatePath]
      simp only [Lucent.itemToDict, Lucent.pathGToDict, Option.getD_some]
      rw [if_neg (by simp [not_lt]; omega)]
      simp [hvc, Bind.bind, Except.bind, pboolD, PVal.pbool,
        Lucent.stripHandles]
    simp only [Lucent.itemToDict] at hvr
    simp [Lucent.parseItem, Lucent.itemToDict, Lucent.strLower_path, hvr,
      Bind.bind, Except.bind, Lucent.roundTripNormalize,
      Lucent.normalizeShapeFields, Lucent.appsOut_map,
      Lucent.stripHandles, Lucent.pidWF_parentOrNone hpid]
  | layer nm lid vis lk =>
    simp only [Lucent.itemWF, decide_eq_true_eq] at hwf
    simp [Lucent.parseItem, Lucent.itemToDict, Lucent.strLower_layer,
      Lucent.roundTripNormalize, Lucent.parentOrNone, hwf, Lucent.nameOf,
      pstrD, PVal.pstr, pboolD, PVal.pbool]
  | group nm gid pid vis lk =>
    simp only [Lucent.itemWF, Bool.and_eq_true, decide_eq_true_eq] at hwf
    obtain ⟨hgid, hpid⟩ := hwf
    have hg : Lucent.parentOrNone (some gid) = some gid :=
      Lucent.pidWF_parentOrNone (by simp [Lucent.pidWF, hgid])
    simp [Lucent.parseItem, Lucent.itemToDict, Lucent.strLower_group,
      Lucent.roundTripNormalize, hg, Lucent.nameOf,
      pstrD, PVal.pstr, pboolD, PVal.pbool,
      Lucent.pidWF_parentOrNone hpid]
  | text x y txt ff fs tc topq w h nm pid vis lk =>
    simp only [Lucent.itemWF, Bool.and_eq_true, decide_eq_true_eq] at hwf
    obtain ⟨⟨⟨⟨⟨⟨h8, h200⟩, h0⟩, h1⟩, hw1⟩, hh0⟩, hpid⟩ := hwf
    have hvt : Lucent.validateText (Lucent.itemToDict
        (.text x y txt ff fs tc topq w h nm pid vis lk)) =
        .ok (x, y, fs, topq, w, h, txt, ff, tc, nm,
          Lucent.parentOrNone pid, vis, lk) := by
      simp [Lucent.validateText, Lucent.itemToDict, Bind.bind, Except.bind,
        pfloatD, PVal.pfloat, Lucent.clampRange_eq h8 h200,
        Lucent.clampRange_eq h0 h1, Lucent.clampMin_eq hw1,
        Lucent.clampMin_eq hh0, pstrD, PVal.pstr, pboolD, PVal.pbool,
        Lucent.nameOf]
    simp only [Lucent.itemToDict] at hvt
    simp [Lucent.parseItem, Lucent.itemToDict, Lucent.strLower_text, hvt,
      Bind.bind, Except.bind, Lucent.roundTripNormalize,
      Lucent.pidWF_parentOrNone hpid]

/-- Witness for C8 (amended) at a concrete well-formed rectangle item. -/
theorem C8_roundtrip_amended_witness :
    Lucent.parseItem (Lucent.itemToDict (Lucent.CanvasItem.rect ⟨1, 2, 3, 4⟩
      ⟨[Lucent.Appearance.stroke ⟨"#00ff00", 2, 1, true⟩], {}, "r", none,
        true, false⟩)) =
    .ok (Lucent.roundTripNormalize (Lucent.CanvasItem.rect ⟨1, 2, 3, 4⟩
      ⟨[Lucent.Appearance.stroke ⟨"#00ff00", 2, 1, true⟩], {}, "r", none,
        true, false⟩)) :=
  C8_roundtrip_amended _ (by decide)

namespace Lucent

theorem dictGet_dictSet (m : List (String × α)) (k : String) (v : α) :
    dictGet (dictSet m k v) k = some v := by
  induction m with
  | nil => simp [dictGet, dictSet]
  | cons p rest ih =>
    by_cases h : p.1 = k
    · simp [dictGet, dictSet, h]
    · simp [dictGet, dictSet, h, ih]

theorem setTransform_geomBounds (it : CanvasItem) (t : Transform) :
    (it.setTransform t).geomBounds = it.geomBounds := by
  cases it <;> rfl

theorem setTransform_fillAttr (it : CanvasItem) (t : Transform) :
    (it.setTransform t).fillAttr = it.fillAttr := by
  cases it <;> rfl

theorem setTransform_strokeAttr (it : CanvasItem) (t : Transform) :
    (it.setTransform t).strokeAttr = it.strokeAttr := by
  cases it <;> rfl

theorem setTransform_isShape (it : CanvasItem) (t : Transform) :
    (it.setTransform t).isShape = it.isShape := by
  cases it <;> rfl

theorem setTransform_isText (it : CanvasItem) (t : Transform) :
    (it.setTransform t).isText = it.isText := by
  cases it <;> rfl

/-- The version hash ignores the transform entirely. -/
theorem getItemVersion_setTransform (it : CanvasItem) (t : Transform) :
    getItemVersion (it.setTransform t) = getItemVersion it := by
  simp [getItemVersion, setTransform_geomBounds, setTransform_fillAttr,
    setTransform_strokeAttr]

theorem rasterizeItem_version {it : CanvasItem} {v : VersionData}
    {e : TextureCacheEntry} (h : rasterizeItem it v = .ok (some e)) :
    e.itemVersion = v := by
  rw [rasterizeItem] at h
  split at h
  · cases h
  · split at h
    · cases h
    · split at h
      · cases h
      · cases h
        rfl

/-- A shape item has a geometry attribute and vice versa. -/
theorem geomBounds_isSome_iff (it : CanvasItem) :
    it.geomBounds.isSome = it.isShape := by
  cases it <;> rfl

end Lucent

/-- C7 counterexample: `get_or_create` does not return an entry for every
non-organizational item.  A zero-width rectangle (empty geometry bounds)
yields `None` even though it is a shape item, and a text item raises
`AttributeError` inside `_rasterize_item` (a `TextItem` has no `geometry`
attribute) instead of returning an entry. -/
theorem C7_get_or_create_counterexample :
    Lucent.getOrCreate
        (Lucent.CanvasItem.rect ⟨0, 0, 0, 10⟩ ⟨[], {}, "", none, true, false⟩)
        "k" Lucent.TextureCache.empty =
      .ok (none, Lucent.TextureCache.empty, true) ∧
    (Lucent.CanvasItem.rect ⟨0, 0, 0, 10⟩
        ⟨[], {}, "", none, true, false⟩).isOrganizational = false ∧
    Lucent.getOrCreate
        (Lucent.CanvasItem.text 0 0 "hi" ("Sans Serif") 16 ("#ffffff") 1
          100 0 "t" none true false)
        "k" Lucent.TextureCache.empty = .error .attributeError := by
  exact ⟨rfl, rfl, rfl⟩

/-- C7 (amended): `get_or_create` returns null for every organizational item
(layer/group) and also for shape items whose geometry bounds are empty
(degenerate geometry, nothing cached under the id); for every shape item
with nonempty geometry bounds it returns a cached raster entry; for text
items (nothing cached under the id) the rasterization step raises
`AttributeError` because `TextItem` has no geometry attribute. -/
theorem C7_get_or_create_amended :
    (∀ (it : Lucent.CanvasItem) (id : String) (c : Lucent.TextureCache),
        it.isOrganizational = true →
        Lucent.getOrCreate it id c = .ok (none, c, false)) ∧
    (∀ (it : Lucent.CanvasItem) (id : String) (c : Lucent.TextureCache)
        (b : Lucent.Rect4), it.geomBounds = some b → b.isEmpty = false →
        ∃ e c' r, Lucent.getOrCreate it id c = .ok (some e, c', r)) ∧
    (∀ (it : Lucent.CanvasItem) (id : String) (c : Lucent.TextureCache)
        (b : Lucent.Rect4), it.geomBounds = some b → b.isEmpty = true →
        Lucent.dictGet c.cache id = none →
        Lucent.getOrCreate it id c = .ok (none, c, true)) ∧
    (∀ (it : Lucent.CanvasItem) (id : String) (c : Lucent.TextureCache),
        it.isText = true → Lucent.dictGet c.cache id = none →
        Lucent.getOrCreate it id c = .error .attributeError) := by
  refine ⟨?_, ?_, ?_, ?_⟩
  · intro it id c h
    cases it <;> simp_all [Lucent.getOrCreate, Lucent.CanvasItem.isShape,
      Lucent.CanvasItem.isText, Lucent.CanvasItem.isOrganizational]
  · intro it id c b hb hbne
    have hshape : it.isShape = true := by
      have := Lucent.geomBounds_isSome_iff it
      rw [hb] at this
      simpa using this.symm
    have hrast : Lucent.rasterizeItem it (Lucent.getItemVersion it) =
        .ok (some ⟨max (Lucent.pint ((b.w + Lucent.PADDING * 2) *
          Lucent.RENDER_SCALE)) 4,
          max (Lucent.pint ((b.h + Lucent.PADDING * 2) *
            Lucent.RENDER_SCALE)) 4, b, Lucent.getItemVersion it⟩) := by
      rw [Lucent.rasterizeItem]
      simp [hshape, hb, hbne]
    rw [Lucent.getOrCreate]
    simp only [hshape, Bool.true_or, Bool.not_true, Bool.false_eq_true,
      if_false]
    obtain ⟨E, hE⟩ : ∃ E, Lucent.rasterizeItem it
        (Lucent.getItemVersion it) = .ok (some E) := ⟨_, hrast⟩
    cases hcached : Lucent.dictGet c.cache id with
    | some cached =>
      by_cases hver : cached.itemVersion = Lucent.getItemVersion it
      · exact ⟨cached, c, false, by simp [hver]⟩
      · exact ⟨E, ⟨Lucent.dictSet c.cache id E,
          Lucent.dictSet c.itemVersions id (Lucent.getItemVersion it)⟩,
          true, by simp [hver, hE, Bind.bind, Except.bind]⟩
    | none =>
      exact ⟨E, ⟨Lucent.dictSet c.cache id E,
        Lucent.dictSet c.itemVersions id (Lucent.getItemVersion it)⟩,
        true, by simp [hE, Bind.bind, Except.bind]⟩
  · intro it id c b hb hbe hmiss
    have hshape : it.isShape = true := by
      have := Lucent.geomBounds_isSome_iff it
      rw [hb] at this
      simpa using this.symm
    have hrast : Lucent.rasterizeItem it (Lucent.getItemVersion it) =
        .ok none := by
      rw [Lucent.rasterizeItem]
      simp [hshape, hb, hbe]
    rw [Lucent.getOrCreate]
    simp [hshape, hmiss, hrast, Bind.bind, Except.bind]
  · intro it id c htext hmiss
    have hng : it.geomBounds = none := by
      cases it <;> simp_all [Lucent.CanvasItem.isText,
        Lucent.CanvasItem.geomBounds]
    have hrast : Lucent.rasterizeItem it (Lucent.getItemVersion it) =
        .error .attributeError := by
      rw [Lucent.rasterizeItem]
      simp [htext, hng]
    rw [Lucent.getOrCreate]
    simp [htext, hmiss, hrast, Bind.bind, Except.bind]

/-- Witness for C7 (amended) at concrete inputs: a layer, a visible 10×10
rectangle, a zero-width rectangle, and a text item, all against the empty
cache. -/
theorem C7_get_or_create_amended_witness :
    Lucent.getOrCreate (Lucent.CanvasItem.layer "l" "id1" true false) "a"
        Lucent.TextureCache.empty =
      .ok (none, Lucent.TextureCache.empty, false) ∧
    (∃ e c' r, Lucent.getOrCreate
        (Lucent.CanvasItem.rect ⟨0, 0, 10, 10⟩ ⟨[], {}, "", none, true,
          false⟩) "b" Lucent.TextureCache.empty = .ok (some e, c', r)) ∧
    Lucent.getOrCreate
        (Lucent.CanvasItem.rect ⟨0, 0, 0, 10⟩ ⟨[], {}, "", none, true,
          false⟩) "c" Lucent.TextureCache.empty =
      .ok (none, Lucent.TextureCache.empty, true) ∧
    Lucent.getOrCreate
        (Lucent.CanvasItem.text 0 0 "hi" ("Sans Serif") 16 ("#ffffff") 1
          100 0 "t" none true false) "d" Lucent.TextureCache.empty =
      .error .attributeError := by
  refine ⟨?_, ?_, ?_, ?_⟩
  · exact C7_get_or_create_amended.1 _ "a" _ rfl
  · exact C7_get_or_create_amended.2.1 _ "b" _ ⟨0, 0, 10, 10⟩ rfl (by decide)
  · exact C7_get_or_create_amended.2.2.1 _ "c" _ ⟨0, 0, 0, 10⟩ rfl
      (by decide) rfl
  · exact C7_get_or_create_amended.2.2.2 _ "d" _ rfl rfl

namespace Lucent

theorem rasterizeItem_shape {it : CanvasItem} {v : VersionData} {b : Rect4}
    (hb : it.geomBounds = some b) (hbne : b.isEmpty = false) :
    rasterizeItem it v = .ok (some
      ⟨max (pint ((b.w + PADDING * 2) * RENDER_SCALE)) 4,
       max (pint ((b.h + PADDING * 2) * RENDER_SCALE)) 4, b, v⟩) := by
  have hshape : it.isShape = true := by
    have := geomBounds_isSome_iff it
    rw [hb] at this
    simpa using this.symm
  rw [rasterizeItem]
  simp [hshape, hb, hbne]

end Lucent

/-- C3 counterexample: the second `get_or_create` call does not return a
cached entry for every shape item when only the transform changed.  For a
zero-width rectangle (empty geometry bounds) the first call caches nothing,
and the second call — with only `transform.rotate` changed — re-enters
`_rasterize_item` (flag `true`) and returns `None` rather than an identical
cached entry. -/
theorem C3_version_counterexample :
    Lucent.getOrCreate
        (Lucent.CanvasItem.rect ⟨0, 0, 0, 10⟩ ⟨[], {}, "", none, true, false⟩)
        "k" Lucent.TextureCache.empty =
      .ok (none, Lucent.TextureCache.empty, true) ∧
    Lucent.getOrCreate
        ((Lucent.CanvasItem.rect ⟨0, 0, 0, 10⟩
          ⟨[], {}, "", none, true, false⟩).setTransform { rotate := 30 })
        "k" Lucent.TextureCache.empty =
      .ok (none, Lucent.TextureCache.empty, true) := by
  exact ⟨rfl, rfl⟩

/-- C3 (amended): the cache version reads only the geometry bounds, the
first fill color and the first stroke color and width — in particular it is
invariant under any transform change, and equal on any two items agreeing on
those three projections; consequently, for a shape item with nonempty
geometry bounds, after a `get_or_create` call returns an entry, a second
call with the same id in which only the transform changed returns that
identical entry with the cache untouched and without invoking
`_rasterize_item`. -/
theorem C3_version_transform_invariant :
    (∀ (it : Lucent.CanvasItem) (t : Lucent.Transform),
        Lucent.getItemVersion (it.setTransform t) =
          Lucent.getItemVersion it) ∧
    (∀ i1 i2 : Lucent.CanvasItem, i1.geomBounds = i2.geomBounds →
        (i1.fillAttr).map Lucent.Fill.color =
          (i2.fillAttr).map Lucent.Fill.color →
        (i1.strokeAttr).map (fun s => (s.color, s.width)) =
          (i2.strokeAttr).map (fun s => (s.color, s.width)) →
        Lucent.getItemVersion i1 = Lucent.getItemVersion i2) ∧
    (∀ (it : Lucent.CanvasItem) (id : String) (c : Lucent.TextureCache)
        (t : Lucent.Transform) (b : Lucent.Rect4)
        (e : Lucent.TextureCacheEntry) (c1 : Lucent.TextureCache)
        (r1 : Bool),
        it.geomBounds = some b → b.isEmpty = false →
        Lucent.getOrCreate it id c = .ok (some e, c1, r1) →
        Lucent.getOrCreate (it.setTransform t) id c1 =
          .ok (some e, c1, false)) := by
  refine ⟨Lucent.getItemVersion_setTransform, ?_, ?_⟩
  · intro i1 i2 hb hf hs
    simp [Lucent.getItemVersion, hb, hf, hs]
  · intro it id c t b e c1 r1 hb hbne hcall
    have hshape : it.isShape = true := by
      have := Lucent.geomBounds_isSome_iff it
      rw [hb] at this
      simpa using this.symm
    have hrast := @Lucent.rasterizeItem_shape it (Lucent.getItemVersion it)
      b hb hbne
    rw [Lucent.getOrCreate] at hcall
    simp only [hshape, Bool.true_or, Bool.not_true, Bool.false_eq_true,
      if_false] at hcall
    have hkey : Lucent.dictGet c1.cache id = some e ∧
        e.itemVersion = Lucent.getItemVersion it := by
      cases hcached : Lucent.dictGet c.cache id with
      | some cached =>
        simp only [hcached] at hcall
        by_cases hver : cached.itemVersion = Lucent.getItemVersion it
        · rw [if_pos hver] at hcall
          cases hcall
          exact ⟨hcached, hver⟩
        · rw [if_neg hver] at hcall
          simp only [hrast, Bind.bind, Except.bind] at hcall
          cases hcall
          exact ⟨Lucent.dictGet_dictSet _ _ _, rfl⟩
      | none =>
        simp only [hcached] at hcall
        simp only [hrast, Bind.bind, Except.bind] at hcall
        cases hcall
        exact ⟨Lucent.dictGet_dictSet _ _ _, rfl⟩
    obtain ⟨hkey1, hkey2⟩ := hkey
    have hshape2 : (it.setTransform t).isShape = true := by
      rw [Lucent.setTransform_isShape]
      exact hshape
    rw [Lucent.getOrCreate]
    simp only [hshape2, Bool.true_or, Bool.not_true, Bool.false_eq_true,
      if_false]
    rw [Lucent.getItemVersion_setTransform, hkey1]
    simp [hkey2]

/-- Witness for C3 (amended) at a concrete red 10×10 rectangle: the version
is unchanged by a rotation, items agreeing on the version inputs share a
version, and the second call after a rotate-only change returns the
identical cached entry without re-rasterizing. -/
theorem C3_version_transform_invariant_witness :
    Lucent.getItemVersion
        ((Lucent.CanvasItem.rect ⟨0, 0, 10, 10⟩
          ⟨[Lucent.Appearance.fill ⟨"#ff0000", 1, true⟩], {}, "", none,
            true, false⟩).setTransform { rotate := 45 }) =
      Lucent.getItemVersion
        (Lucent.CanvasItem.rect ⟨0, 0, 10, 10⟩
          ⟨[Lucent.Appearance.fill ⟨"#ff0000", 1, true⟩], {}, "", none,
            true, false⟩) ∧
    Lucent.getItemVersion
        (Lucent.CanvasItem.rect ⟨0, 0, 10, 10⟩
          ⟨[Lucent.Appearance.fill ⟨"#ff0000", 1, true⟩], {}, "a", none,
            true, false⟩) =
      Lucent.getItemVersion
        (Lucent.CanvasItem.rect ⟨0, 0, 10, 10⟩
          ⟨[Lucent.Appearance.fill ⟨"#ff0000", 1, true⟩], {}, "b", none,
            true, false⟩) ∧
    Lucent.getOrCreate
        ((Lucent.CanvasItem.rect ⟨0, 0, 10, 10⟩
          ⟨[Lucent.Appearance.fill ⟨"#ff0000", 1, true⟩], {}, "", none,
            true, false⟩).setTransform { rotate := 45 }) "k"
        ⟨[("k", ⟨max (Lucent.pint ((10 + Lucent.PADDING * 2) *
              Lucent.RENDER_SCALE)) 4,
            max (Lucent.pint ((10 + Lucent.PADDING * 2) *
              Lucent.RENDER_SCALE)) 4, ⟨0, 0, 10, 10⟩,
            ⟨some ⟨0, 0, 10, 10⟩, some ("#ff0000"), none⟩⟩)],
          [("k", ⟨some ⟨0, 0, 10, 10⟩, some ("#ff0000"), none⟩)]⟩ =
      .ok (some ⟨max (Lucent.pint ((10 + Lucent.PADDING * 2) *
              Lucent.RENDER_SCALE)) 4,
            max (Lucent.pint ((10 + Lucent.PADDING * 2) *
              Lucent.RENDER_SCALE)) 4, ⟨0, 0, 10, 10⟩,
            ⟨some ⟨0, 0, 10, 10⟩, some ("#ff0000"), none⟩⟩,
        ⟨[("k", ⟨max (Lucent.pint ((10 + Lucent.PADDING * 2) *
              Lucent.RENDER_SCALE)) 4,
            max (Lucent.pint ((10 + Lucent.PADDING * 2) *
              Lucent.RENDER_SCALE)) 4, ⟨0, 0, 10, 10⟩,
            ⟨some ⟨0, 0, 10, 10⟩, some ("#ff0000"), none⟩⟩)],
          [("k", ⟨some ⟨0, 0, 10, 10⟩, some ("#ff0000"), none⟩)]⟩,
        false) := by
  refine ⟨?_, ?_, ?_⟩
  · exact C3_version_transform_invariant.1 _ { rotate := 45 }
  · exact C3_version_transform_invariant.2.1 _ _ rfl rfl rfl
  · exact C3_version_transform_invariant.2.2 _ "k"
      Lucent.TextureCache.empty { rotate := 45 } ⟨0, 0, 10, 10⟩ _ _ true
      rfl (by decide) rfl

namespace DV

/-! ### Document model (`src/canvas_model.py`)

The item classes come from the top-level `canvas_items.py`.  The snapshot of
that file in the source tree holds only a `RectangleItem` without
`stroke_opacity`, while `CanvasModel` requires an `EllipseItem` and reads
`stroke_opacity` of both; the complete classes are code of this repository
that is not under `src/`.  Modelled from the spec: the missing
`EllipseItem` (spec §3 Ellipse: center + radii) and the `strokeOpacity`
handling of both factories (spec §3 Stroke opacity, default 1), following
the field set that `CanvasModel._itemToDict` and `updateItem` use and the
`from_dict` default pattern of the `RectangleItem` present in `src`. -/

/-- Fields of `RectangleItem`. -/
structure RectItem where
  x : ℚ
  y : ℚ
  width : ℚ
  height : ℚ
  strokeWidth : ℚ
  strokeColor : String
  strokeOpacity : ℚ
  fillColor : String
  fillOpacity : ℚ
deriving DecidableEq, Repr

/-- Fields of `EllipseItem`. -/
structure EllItem where
  centerX : ℚ
  centerY : ℚ
  radiusX : ℚ
  radiusY : ℚ
  strokeWidth : ℚ
  strokeColor : String
  strokeOpacity : ℚ
  fillColor : String
  fillOpacity : ℚ
deriving DecidableEq, Repr

/-- A canvas item of the document model.  `layer` (spec §3 LayerItem: an
organizational item, never rendered) can occur in an item sequence handed to
the renderer but is never created by the model operations in `src`. -/
inductive CItem where
  | rect (r : RectItem)
  | ellipse (e : EllItem)
  | layer (name : String) (id : String)
deriving DecidableEq, Repr

/-- The dictionary representation exchanged with callers and stored in undo
commands (`CanvasModel._itemToDict` output shape: a `type` tag plus the
per-variant keys; an absent key is `none`). -/
structure DVDict where
  type : String := ""
  x : Option PVal := none
  y : Option PVal := none
  width : Option PVal := none
  height : Option PVal := none
  centerX : Option PVal := none
  centerY : Option PVal := none
  radiusX : Option PVal := none
  radiusY : Option PVal := none
  strokeWidth : Option PVal := none
  strokeColor : Option PVal := none
  strokeOpacity : Option PVal := none
  fillColor : Option PVal := none
  fillOpacity : Option PVal := none
deriving DecidableEq, Repr

/-- `CanvasModel._itemToDict`: full per-variant dictionary for rectangles
and ellipses, the empty dictionary for anything else. -/
def itemToDict : CItem → DVDict
  | .rect r =>
    { type := "rectangle", x := some (.num r.x), y := some (.num r.y),
      width := some (.num r.width), height := some (.num r.height),
      strokeWidth := some (.num r.strokeWidth),
      strokeColor := some (.str r.strokeColor),
      strokeOpacity := some (.num r.strokeOpacity),
      fillColor := some (.str r.fillColor),
      fillOpacity := some (.num r.fillOpacity) }
  | .ellipse e =>
    { type := "ellipse", centerX := some (.num e.centerX),
      centerY := some (.num e.centerY), radiusX := some (.num e.radiusX),
      radiusY := some (.num e.radiusY),
      strokeWidth := some (.num e.strokeWidth),
      strokeColor := some (.str e.strokeColor),
      strokeOpacity := some (.num e.strokeOpacity),
      fillColor := some (.str e.fillColor),
      fillOpacity := some (.num e.fillOpacity) }
  | .layer _ _ => {}

/-- `RectangleItem.from_dict`: every field read with its default, numeric
fields through `float(...)` (which can raise).  `strokeOpacity` (absent from
the `src` snapshot of the factory) is modelled from the spec with default
opacity 1. -/
def fromDictRect (d : DVDict) : Except PyErr RectItem := do
  let x ← pfloatD d.x 0
  let y ← pfloatD d.y 0
  let w ← pfloatD d.width 0
  let h ← pfloatD d.height 0
  let sw ← pfloatD d.strokeWidth 1
  let so ← pfloatD d.strokeOpacity 1
  let fo ← pfloatD d.fillOpacity 0
  .ok ⟨x, y, w, h, sw, pstrD d.strokeColor ("#ffffff"), so,
    pstrD d.fillColor ("#ffffff"), fo⟩

/-- `EllipseItem.from_dict` (modelled from the spec, by the same pattern as
the rectangle factory). -/
def fromDictEllipse (d : DVDict) : Except PyErr EllItem := do
  let cx ← pfloatD d.centerX 0
  let cy ← pfloatD d.centerY 0
  let rx ← pfloatD d.radiusX 0
  let ry ← pfloatD d.radiusY 0
  let sw ← pfloatD d.strokeWidth 1
  let so ← pfloatD d.strokeOpacity 1
  let fo ← pfloatD d.fillOpacity 0
  .ok ⟨cx, cy, rx, ry, sw, pstrD d.strokeColor ("#ffffff"), so,
    pstrD d.fillColor ("#ffffff"), fo⟩

/-- `CanvasModel._createItem`: rectangle when the tag says so, otherwise the
ellipse factory (there is no error branch for unknown tags here). -/
def createItem (d : DVDict) : Except PyErr CItem :=
  if d.type = "rectangle" then (fromDictRect d).map CItem.rect
  else (fromDictEllipse d).map CItem.ellipse

/-- An undo/redo command tuple. -/
inductive Cmd where
  | removeC (i : Nat) (d : DVDict)
  | addC (i : Nat) (d : DVDict)
  | updateC (i : Nat) (d : DVDict)
  | txnC (changes : List (Nat × DVDict))
  | restoreAllC (snap : List DVDict)
  | clearAllC (snap : List DVDict)
deriving DecidableEq, Repr

/-- The `CanvasModel` state: item sequence, the two command stacks (top at
the head), the replay flags and the transaction bracket state. -/
structure MState where
  items : List CItem
  undoStack : List Cmd
  redoStack : List Cmd
  undoing : Bool
  redoing : Bool
  transactionActive : Bool
  transactionSnapshot : List (Nat × DVDict)
deriving DecidableEq, Repr

/-- `CanvasModel.__init__`. -/
def initState : MState := ⟨[], [], [], false, false, false, []⟩

/-- `CanvasModel._push_undo`: push, and clear the redo stack unless a replay
is in progress. -/
def pushUndo (s : MState) (c : Cmd) : MState :=
  let s1 := { s with undoStack := c :: s.undoStack }
  if !s1.redoStack.isEmpty && !s1.undoing && !s1.redoing then
    { s1 with redoStack := [] }
  else s1

/-- `CanvasModel._push_redo`. -/
def pushRedo (s : MState) (c : Cmd) : MState :=
  { s with redoStack := c :: s.redoStack }

/-- Python `del l[i]` (raises `IndexError` out of range). -/
def pyDel (l : List α) (i : Nat) : Except PyErr (List α) :=
  if i < l.length then .ok (l.eraseIdx i) else .error .indexError

/-- Python `l.insert(i, a)` (clamps the position, never raises). -/
def pyInsert (l : List α) (i : Nat) (a : α) : List α :=
  l.insertIdx (min i l.length) a

/-- Python `l[i]` read (raises `IndexError` out of range). -/
def pyGet (l : List α) (i : Nat) : Except PyErr α :=
  match l[i]? with
  | some a => .ok a
  | none => .error .indexError

/-- `CanvasModel.addItem`: dispatch on the `type` tag; unknown tags and
factory exceptions (`float` failures) are caught and reported, leaving the
state unchanged; otherwise append and push the inverse remove unless a
replay is in progress. -/
def addItem (s : MState) (d : DVDict) : MState :=
  if d.type = "rectangle" then
    match fromDictRect d with
    | .error _ => s
    | .ok r =>
      let it := CItem.rect r
      let s1 := { s with items := s.items ++ [it] }
      if !s1.undoing && !s1.redoing then
        pushUndo s1 (.removeC s.items.length (itemToDict it))
      else s1
  else if d.type = "ellipse" then
    match fromDictEllipse d with
    | .error _ => s
    | .ok e =>
      let it := CItem.ellipse e
      let s1 := { s with items := s.items ++ [it] }
      if !s1.undoing && !s1.redoing then
        pushUndo s1 (.removeC s.items.length (itemToDict it))
      else s1
  else s

/-- `CanvasModel.removeItem`: bounds-checked; push the inverse add (unless
replaying) and delete. -/
def removeItem (s : MState) (i : Int) : MState :=
  if 0 ≤ i ∧ i < (s.items.length : Int) then
    match s.items[i.toNat]? with
    | none => s
    | some item =>
      let d := itemToDict item
      let s1 := if !s.undoing && !s.redoing then
          pushUndo s (.addC i.toNat d)
        else s
      { s1 with items := s1.items.eraseIdx i.toNat }
  else s

/-- `CanvasModel.clear`: snapshot-push (unless replaying or already empty)
then empty the sequence. -/
def clearItems (s : MState) : MState :=
  let s1 := if !s.undoing && !s.redoing && !s.items.isEmpty then
      pushUndo s (.restoreAllC (s.items.map itemToDict))
    else s
  { s1 with items := [] }

/-- The argument dictionary of `updateItem`. -/
structure Props where
  x : Option PVal := none
  y : Option PVal := none
  width : Option PVal := none
  height : Option PVal := none
  centerX : Option PVal := none
  centerY : Option PVal := none
  radiusX : Option PVal := none
  radiusY : Option PVal := none
  strokeWidth : Option PVal := none
  strokeColor : Option PVal := none
  strokeOpacity : Option PVal := none
  fillColor : Option PVal := none
  fillOpacity : Option PVal := none
deriving DecidableEq, Repr

/-- One guarded numeric field assignment of `updateItem`: absent key — no
change; present and convertible — assign; present and raising — keep the
value mutated so far and report the failure (the `except` in `updateItem`
catches after earlier assignments already happened). -/
def stepNum (cur : α) (o : Option PVal) (set : α → ℚ → α) : α × Bool :=
  match o with
  | none => (cur, false)
  | some v =>
    match v.pfloat with
    | .ok q => (set cur q, false)
    | .error _ => (cur, true)

/-- A guarded string field assignment (`str(...)` is total). -/
def stepStr (cur : α) (o : Option PVal) (set : α → String → α) : α :=
  match o with
  | none => cur
  | some v => set cur v.pstr

/-- The rectangle branch plus the common appearance section of
`updateItem`, with the source's clamping and in the source's order. -/
def applyPropsRect (r0 : RectItem) (p : Props) : RectItem × Bool :=
  let (r, e) := stepNum r0 p.x fun r q => { r with x := q }
  if e then (r, true) else
  let (r, e) := stepNum r p.y fun r q => { r with y := q }
  if e then (r, true) else
  let (r, e) := stepNum r p.width fun r q => { r with width := max 0 q }
  if e then (r, true) else
  let (r, e) := stepNum r p.height fun r q => { r with height := max 0 q }
  if e then (r, true) else
  let (r, e) := stepNum r p.strokeWidth fun r q =>
    { r with strokeWidth := max (1/10) (min 100 q) }
  if e then (r, true) else
  let r := stepStr r p.strokeColor fun r c => { r with strokeColor := c }
  let (r, e) := stepNum r p.strokeOpacity fun r q =>
    { r with strokeOpacity := max 0 (min 1 q) }
  if e then (r, true) else
  let r := stepStr r p.fillColor fun r c => { r with fillColor := c }
  let (r, e) := stepNum r p.fillOpacity fun r q =>
    { r with fillOpacity := max 0 (min 1 q) }
  (r, e)

/-- The ellipse branch plus the common appearance section of `updateItem`. -/
def applyPropsEllipse (e0 : EllItem) (p : Props) : EllItem × Bool :=
  let (a, e) := stepNum e0 p.centerX fun a q => { a with centerX := q }
  if e then (a, true) else
  let (a, e) := stepNum a p.centerY fun a q => { a with centerY := q }
  if e then (a, true) else
  let (a, e) := stepNum a p.radiusX fun a q => { a with radiusX := max 0 q }
  if e then (a, true) else
  let (a, e) := stepNum a p.radiusY fun a q => { a with radiusY := max 0 q }
  if e then (a, true) else
  let (a, e) := stepNum a p.strokeWidth fun a q =>
    { a with strokeWidth := max (1/10) (min 100 q) }
  if e then (a, true) else
  let a := stepStr a p.strokeColor fun a c => { a with strokeColor := c }
  let (a, e) := stepNum a p.strokeOpacity fun a q =>
    { a with strokeOpacity := max 0 (min 1 q) }
  if e then (a, true) else
  let a := stepStr a p.fillColor fun a c => { a with fillColor := c }
  let (a, e) := stepNum a p.fillOpacity fun a q =>
    { a with fillOpacity := max 0 (min 1 q) }
  (a, e)

/-- For a non-shape item only the common appearance section runs; the
assignments create attributes invisible to `_itemToDict`, so only the
raise/no-raise outcome of the numeric conversions matters. -/
def appearOnlyErr (p : Props) : Bool :=
  (match p.strokeWidth.map PVal.pfloat with
   | some (.error _) => true
   | _ =>
     match p.strokeOpacity.map PVal.pfloat with
     | some (.error _) => true
     | _ =>
       match p.fillOpacity.map PVal.pfloat with
       | some (.error _) => true
       | _ => false)

/-- The in-place mutation step of `updateItem` on one item. -/
def updateItemFields (it : CItem) (p : Props) : CItem × Bool :=
  match it with
  | .rect r => let (r2, e) := applyPropsRect r p; (.rect r2, e)
  | .ellipse a => let (a2, e) := applyPropsEllipse a p; (.ellipse a2, e)
  | .layer nm lid => (.layer nm lid, appearOnlyErr p)

/-- `CanvasModel.updateItem`: bounds-checked, in-place mutation; the undo
push happens only when no conversion raised and neither a replay nor a
transaction is active. -/
def updateItem (s : MState) (i : Int) (p : Props) : MState :=
  if 0 ≤ i ∧ i < (s.items.length : Int) then
    match s.items[i.toNat]? with
    | none => s
    | some item =>
      let old := itemToDict item
      let res := updateItemFields item p
      let s1 := { s with items := s.items.set i.toNat res.1 }
      if res.2 then s1
      else if !s1.undoing && !s1.redoing && !s1.transactionActive then
        pushUndo s1 (.updateC i.toNat old)
      else s1
  else s

/-- `CanvasModel.beginTransaction`: snapshot every item's dictionary by
index. -/
def beginTransaction (s : MState) : MState :=
  if s.transactionActive then s
  else
    { s with
      transactionActive := true
      transactionSnapshot := (s.items.map itemToDict).enum }

/-- `CanvasModel.endTransaction`: diff the snapshot against the current
items (skipping indices no longer in range) and push one batched command
holding the changed items' prior dictionaries. -/
def endTransaction (s : MState) : MState :=
  if !s.transactionActive then s
  else
    let s0 := { s with transactionActive := false }
    let changes := s0.transactionSnapshot.filterMap fun pr =>
      match s0.items[pr.1]? with
      | some cur => if itemToDict cur ≠ pr.2 then some pr else none
      | none => none
    let s1 := { s0 with transactionSnapshot := [] }
    if changes.isEmpty then s1 else pushUndo s1 (.txnC changes)

/-- `for item_data in snapshot: items.append(_createItem(item_data))`. -/
def listCreate : List DVDict → Except PyErr (List CItem)
  | [] => .ok []
  | d :: rest => do
    let it ← createItem d
    let items ← listCreate rest
    .ok (it :: items)

/-- The transaction replay loop shared by `undo`/`redo`: per changed index,
record the current dictionary, then overwrite the item from the stored
dictionary. -/
def applyTxn : List (Nat × DVDict) → List CItem →
    Except PyErr (List CItem × List (Nat × DVDict))
  | [], items => .ok (items, [])
  | (i, old) :: rest, items => do
    let cur ← pyGet items i
    let it ← createItem old
    let (items3, redoRest) ← applyTxn rest (items.set i it)
    .ok (items3, (i, itemToDict cur) :: redoRest)

/-- The per-command body shared by `undo()` and `redo()` (the six branches
mutate the item sequence the same way in both; only which stack receives
the inverse differs).  Returns the new item sequence and the inverse
command. -/
def runCmd (c : Cmd) (items : List CItem) :
    Except PyErr (List CItem × Cmd) :=
  match c with
  | .removeC i d => do
    let items2 ← pyDel items i
    .ok (items2, .addC i d)
  | .addC i d => do
    let it ← createItem d
    .ok (pyInsert items i it, .removeC i d)
  | .updateC i d => do
    let cur ← pyGet items i
    let it ← createItem d
    .ok (items.set i it, .updateC i (itemToDict cur))
  | .txnC changes => do
    let (items2, redoChanges) ← applyTxn changes items
    .ok (items2, .txnC redoChanges)
  | .restoreAllC snap => do
    let cur := items.map itemToDict
    let items2 ← listCreate snap
    .ok (items2, .clearAllC cur)
  | .clearAllC _ => .ok ([], .restoreAllC (items.map itemToDict))

/-- `CanvasModel.undo`: pop, set the replay flag, apply the command, push
the inverse onto the redo stack, reset the flag (the `finally` also resets
it when an exception propagates). -/
def undoOp (s : MState) : Except PyErr (Bool × MState) :=
  match s.undoStack with
  | [] => .ok (false, s)
  | c :: rest =>
    let s1 := { s with undoStack := rest, undoing := true }
    match runCmd c s1.items with
    | .error e => .error e
    | .ok (items2, inv) =>
      let s2 := pushRedo { s1 with items := items2 } inv
      .ok (true, { s2 with undoing := false })

/-- `CanvasModel.redo`: symmetric to `undo` (the inverse goes onto the undo
stack through `_push_undo`, whose redo-clearing is disabled by the replay
flag). -/
def redoOp (s : MState) : Except PyErr (Bool × MState) :=
  match s.redoStack with
  | [] => .ok (false, s)
  | c :: rest =>
    let s1 := { s with redoStack := rest, redoing := true }
    match runCmd c s1.items with
    | .error e => .error e
    | .ok (items2, inv) =>
      let s2 := pushUndo { s1 with items := items2 } inv
      .ok (true, { s2 with redoing := false })

/-- A public model operation with its argument data. -/
inductive Op where
  | add (d : DVDict)
  | remove (i : Int)
  | update (i : Int) (p : Props)
  | clear
  | undo
  | redo
  | beginT
  | endT
deriving Repr

/-- One public call. -/
def opStep (s : MState) : Op → Except PyErr MState
  | .add d => .ok (addItem s d)
  | .remove i => .ok (removeItem s i)
  | .update i p => .ok (updateItem s i p)
  | .clear => .ok (clearItems s)
  | .undo => (undoOp s).map Prod.snd
  | .redo => (redoOp s).map Prod.snd
  | .beginT => .ok (beginTransaction s)
  | .endT => .ok (endTransaction s)

/-- A sequence of public calls. -/
def runOps : MState → List Op → Except PyErr MState
  | s, [] => .ok s
  | s, op :: rest => do
    let s2 ← opStep s op
    runOps s2 rest

/-! ### Renderer (`src/canvas_renderer.py`) -/

/-- `isinstance(item, (RectangleItem, EllipseItem))`. -/
def isShapeItem : CItem → Bool
  | .rect _ => true
  | .ellipse _ => true
  | .layer _ _ => false

/-- `CanvasRenderer._get_render_order`: iterate the model items in reverse,
keeping only shape items. -/
def getRenderOrder (items : List CItem) : List CItem :=
  items.reverse.foldl
    (fun acc it => if isShapeItem it then acc ++ [it] else acc) []

end DV

/-- C6: invalid input is rejected as a complete no-op — an `addItem` with an
unknown type tag, and a `removeItem` or `updateItem` with an index outside
the current bounds, leave the entire model state (item sequence, all item
fields, undo stack, redo stack) exactly as it was. -/
theorem C6_invalid_input_noop :
    (∀ (s : DV.MState) (d : DV.DVDict),
        d.type ≠ "rectangle" → d.type ≠ "ellipse" → DV.addItem s d = s) ∧
    (∀ (s : DV.MState) (i : Int),
        ¬(0 ≤ i ∧ i < (s.items.length : Int)) → DV.removeItem s i = s) ∧
    (∀ (s : DV.MState) (i : Int) (p : DV.Props),
        ¬(0 ≤ i ∧ i < (s.items.length : Int)) → DV.updateItem s i p = s) := by
  refine ⟨?_, ?_, ?_⟩
  · intro s d h1 h2
    simp [DV.addItem, h1, h2]
  · intro s i h
    simp [DV.removeItem, h]
  · intro s i p h
    simp [DV.updateItem, h]

/-- Witness for C6 at concrete inputs: an unknown tag and two out-of-range
indices against the empty model. -/
theorem C6_invalid_input_noop_witness :
    DV.addItem DV.initState { type := "circle" } = DV.initState ∧
    DV.removeItem DV.initState 3 = DV.initState ∧
    DV.updateItem DV.initState (-1) {} = DV.initState := by
  refine ⟨?_, ?_, ?_⟩
  · exact C6_invalid_input_noop.1 DV.initState { type := "circle" }
      (by decide) (by decide)
  · exact C6_invalid_input_noop.2.1 DV.initState 3 (by decide)
  · exact C6_invalid_input_noop.2.2 DV.initState (-1) {} (by decide)

namespace DV

theorem renderOrder_foldl (l acc : List CItem) :
    l.foldl (fun acc it => if isShapeItem it then acc ++ [it] else acc) acc
      = acc ++ l.filter isShapeItem := by
  induction l generalizing acc with
  | nil => simp
  | cons a rest ih =>
    by_cases h : isShapeItem a
    · simp [List.foldl, h, ih, List.filter_cons]
    · simp [List.foldl, h, ih, List.filter_cons]

end DV

/-- C4: the renderer's paint order is the reverse of the model's item
sequence with all non-shape (organizational) items removed; in the concrete
scenario of three rectangles added as First (x=0), Second (x=5), Third
(x=10) — the `src` item snapshot carries no name field, so the rectangles
are distinguished by coordinates — the paint order is [Third, Second,
First], i.e. model index 0 is painted last (topmost). -/
theorem C4_render_order :
    (∀ items : List DV.CItem,
        DV.getRenderOrder items =
          (items.filter DV.isShapeItem).reverse) ∧
    (DV.getRenderOrder (DV.addItem (DV.addItem (DV.addItem DV.initState
        { type := "rectangle", x := some (.num 0), y := some (.num 0),
          width := some (.num 10), height := some (.num 10) })
        { type := "rectangle", x := some (.num 5), y := some (.num 5),
          width := some (.num 10), height := some (.num 10) })
        { type := "rectangle", x := some (.num 10), y := some (.num 10),
          width := some (.num 10), height := some (.num 10) }).items =
      [DV.CItem.rect ⟨10, 10, 10, 10, 1, "#ffffff", 1, "#ffffff", 0⟩,
       DV.CItem.rect ⟨5, 5, 10, 10, 1, "#ffffff", 1, "#ffffff", 0⟩,
       DV.CItem.rect ⟨0, 0, 10, 10, 1, "#ffffff", 1, "#ffffff", 0⟩]) := by
  constructor
  · intro items
    rw [DV.getRenderOrder, DV.renderOrder_foldl, List.nil_append,
      ← List.filter_reverse]
  · rfl

/-- C5 counterexample: during an open transaction (no replay in progress),
`addItem` still pushes an undo entry — only `updateItem` is inhibited by the
transaction flag — so a mutation inside a transaction does change the undo
stack. -/
theorem C5_replay_guard_counterexample :
    (DV.beginTransaction DV.initState).transactionActive = true ∧
    (DV.addItem (DV.beginTransaction DV.initState)
      { type := "rectangle", x := some (.num 1), y := some (.num 2),
        width := some (.num 3), height := some (.num 4) }).undoStack.length
      = 1 := by
  exact ⟨rfl, rfl⟩

/-- C5 (amended): while an undo/redo replay is executing, none of the four
mutation operations (addItem, removeItem, updateItem, clear) pushes an undo
entry or clears the redo stack — both stacks are left exactly as they were;
while a transaction is open (outside replay) this inhibition applies to
`updateItem` only (addItem/removeItem/clear still push). -/
theorem C5_replay_guard_amended :
    (∀ (s : DV.MState) (d : DV.DVDict), (s.undoing || s.redoing) = true →
        (DV.addItem s d).undoStack = s.undoStack ∧
        (DV.addItem s d).redoStack = s.redoStack) ∧
    (∀ (s : DV.MState) (i : Int), (s.undoing || s.redoing) = true →
        (DV.removeItem s i).undoStack = s.undoStack ∧
        (DV.removeItem s i).redoStack = s.redoStack) ∧
    (∀ (s : DV.MState) (i : Int) (p : DV.Props),
        (s.undoing || s.redoing) = true →
        (DV.updateItem s i p).undoStack = s.undoStack ∧
        (DV.updateItem s i p).redoStack = s.redoStack) ∧
    (∀ s : DV.MState, (s.undoing || s.redoing) = true →
        (DV.clearItems s).undoStack = s.undoStack ∧
        (DV.clearItems s).redoStack = s.redoStack) ∧
    (∀ (s : DV.MState) (i : Int) (p : DV.Props),
        s.transactionActive = true →
        (DV.updateItem s i p).undoStack = s.undoStack ∧
        (DV.updateItem s i p).redoStack = s.redoStack) := by
  refine ⟨?_, ?_, ?_, ?_, ?_⟩
  · intro s d h
    simp only [Bool.or_eq_true] at h
    rw [DV.addItem]
    split
    · cases hfd : DV.fromDictRect d with
      | error e => exact ⟨rfl, rfl⟩
      | ok r => rcases h with h | h <;> simp [h]
    · split
      · cases hfd : DV.fromDictEllipse d with
        | error e => exact ⟨rfl, rfl⟩
        | ok a => rcases h with h | h <;> simp [h]
      · exact ⟨rfl, rfl⟩
  · intro s i h
    simp only [Bool.or_eq_true] at h
    rw [DV.removeItem]
    split
    · cases hit : s.items[i.toNat]? with
      | none => exact ⟨rfl, rfl⟩
      | some it => rcases h with h | h <;> simp [h]
    · exact ⟨rfl, rfl⟩
  · intro s i p h
    simp only [Bool.or_eq_true] at h
    rw [DV.updateItem]
    split
    · cases hit : s.items[i.toNat]? with
      | none => exact ⟨rfl, rfl⟩
      | some it =>
        split
        · exact ⟨rfl, rfl⟩
        · rcases h with h | h <;> simp [h]
    · exact ⟨rfl, rfl⟩
  · intro s h
    simp only [Bool.or_eq_true] at h
    rw [DV.clearItems]
    rcases h with h | h <;> simp [h]
  · intro s i p ht
    rw [DV.updateItem]
    split
    · cases hit : s.items[i.toNat]? with
      | none => exact ⟨rfl, rfl⟩
      | some it =>
        split
        · exact ⟨rfl, rfl⟩
        · simp [ht]
    · exact ⟨rfl, rfl⟩

/-- Witness for C5 (amended): concrete replaying states (flag set as
`undo()`/`redo()` do around command application) and an open-transaction
state, with concrete argument data. -/
theorem C5_replay_guard_amended_witness :
    ((DV.addItem ⟨[], [], [], true, false, false, []⟩
        { type := "rectangle" }).undoStack = [] ∧
      (DV.addItem ⟨[], [], [], true, false, false, []⟩
        { type := "rectangle" }).redoStack = []) ∧
    ((DV.removeItem ⟨[DV.CItem.rect ⟨0, 0, 1, 1, 1, "#ffffff", 1,
          "#ffffff", 0⟩], [], [], false, true, false, []⟩ 0).undoStack =
        [] ∧
      (DV.removeItem ⟨[DV.CItem.rect ⟨0, 0, 1, 1, 1, "#ffffff", 1,
          "#ffffff", 0⟩], [], [], false, true, false, []⟩ 0).redoStack =
        []) ∧
    ((DV.updateItem ⟨[DV.CItem.rect ⟨0, 0, 1, 1, 1, "#ffffff", 1,
          "#ffffff", 0⟩], [], [], true, false, false, []⟩ 0
        { x := some (.num 7) }).undoStack = [] ∧
      (DV.updateItem ⟨[DV.CItem.rect ⟨0, 0, 1, 1, 1, "#ffffff", 1,
          "#ffffff", 0⟩], [], [], true, false, false, []⟩ 0
        { x := some (.num 7) }).redoStack = []) ∧
    ((DV.clearItems ⟨[DV.CItem.rect ⟨0, 0, 1, 1, 1, "#ffffff", 1,
          "#ffffff", 0⟩], [], [], true, false, false, []⟩).undoStack =
        [] ∧
      (DV.clearItems ⟨[DV.CItem.rect ⟨0, 0, 1, 1, 1, "#ffffff", 1,
          "#ffffff", 0⟩], [], [], true, false, false, []⟩).redoStack =
        []) ∧
    ((DV.updateItem (DV.beginTransaction ⟨[DV.CItem.rect ⟨0, 0, 1, 1, 1,
          "#ffffff", 1, "#ffffff", 0⟩], [], [], false, false, false, []⟩)
        0 { x := some (.num 7) }).undoStack = [] ∧
      (DV.updateItem (DV.beginTransaction ⟨[DV.CItem.rect ⟨0, 0, 1, 1, 1,
          "#ffffff", 1, "#ffffff", 0⟩], [], [], false, false, false, []⟩)
        0 { x := some (.num 7) }).redoStack = []) := by
  refine ⟨?_, ?_, ?_, ?_, ?_⟩
  · exact C5_replay_guard_amended.1 _ _ rfl
  · exact C5_replay_guard_amended.2.1 _ 0 rfl
  · exact C5_replay_guard_amended.2.2.1 _ 0 _ rfl
  · exact C5_replay_guard_amended.2.2.2.1 _ rfl
  · exact C5_replay_guard_amended.2.2.2.2 _ 0 _ rfl

namespace DV

/-- Serializing a rectangle or ellipse item and re-creating it through
`_createItem` reproduces the item exactly. -/
theorem createItem_itemToDict {it : CItem} (h : isShapeItem it = true) :
    createItem (itemToDict it) = .ok it := by
  cases it with
  | rect r => rfl
  | ellipse e => rfl
  | layer nm lid => simp [isShapeItem] at h

/-- Writing back the element already at a position is the identity. -/
theorem set_self : ∀ (l : List α) (i : Nat), i < l.length →
    ∀ a, l[i]? = some a → l.set i a = l
  | [], i, h, a, ha => by simp at h
  | x :: xs, 0, h, a, ha => by
    simp at ha
    simp [List.set, ha]
  | x :: xs, i + 1, h, a, ha => by
    simp at ha h
    simp [List.set, set_self xs i h a ha]

/-- `updateItem` at a valid index while a transaction is open: the item is
mutated in place and nothing else changes (no undo entry, snapshot kept). -/
theorem updateItem_txn {s : MState} {i : Nat} {it : CItem} (p : Props)
    (hit : s.items[i]? = some it) (hta : s.transactionActive = true) :
    updateItem s (i : Int) p =
      { s with items := s.items.set i (updateItemFields it p).1 } := by
  have hlt : i < s.items.length := by
    by_contra hge
    rw [List.getElem?_eq_none (by omega)] at hit
    cases hit
  rw [updateItem, if_pos ⟨by omega, by exact_mod_cast hlt⟩]
  simp only [Int.toNat_natCast, hit]
  split
  · rfl
  · simp [hta]

end DV

namespace DV

/-- The `endTransaction` diff over a snapshot window: if exactly the entry
at absolute index `i` changed (to a different dictionary) and every other
index holds its snapshot value, the changes list is the singleton holding
index `i` and its prior dictionary. -/
theorem txn_changes_window (M : List CItem) (i : Nat) (keep : DVDict) :
    ∀ (w : List CItem) (n : Nat),
    (∀ j, (hj : j < w.length) → j + n ≠ i →
        M[j + n]? = some (w.get ⟨j, hj⟩)) →
    (∀ j, (hj : j < w.length) → j + n = i → ∃ cur, M[j + n]? = some cur ∧
        itemToDict cur ≠ itemToDict (w.get ⟨j, hj⟩) ∧
        itemToDict (w.get ⟨j, hj⟩) = keep) →
    ((List.enumFrom n (w.map itemToDict)).filterMap fun pr =>
        match M[pr.1]? with
        | some cur => if itemToDict cur ≠ pr.2 then some pr else none
        | none => none) =
      (if n ≤ i ∧ i < n + w.length then [(i, keep)] else []) := by
  intro w
  induction w with
  | nil =>
    intro n hunc hchg
    rw [if_neg (by simp only [List.length_nil]; omega)]
    rfl
  | cons x xs ih =>
    intro n hunc hchg
    have htail := ih (n + 1)
      (fun j hj hne => by
        have hidx : j + (n + 1) = (j + 1) + n := by omega
        rw [hidx]
        exact hunc (j + 1) (by simpa using Nat.succ_lt_succ hj)
          (by omega))
      (fun j hj heq => by
        have hidx : j + (n + 1) = (j + 1) + n := by omega
        rw [hidx]
        exact hchg (j + 1) (by simpa using Nat.succ_lt_succ hj)
          (by omega))
    simp only [List.map_cons, List.enumFrom, List.filterMap_cons]
    by_cases hn : n = i
    · obtain ⟨cur, hM, hne, hkeep⟩ := hchg 0 (by simp) (by omega)
      simp only [Nat.zero_add] at hM
      simp only [List.get] at hne hkeep
      have h1 : ¬(n + 1 ≤ i ∧ i < n + 1 + xs.length) := by omega
      have h2 : n ≤ i ∧ i < n + (x :: xs).length := by
        simp only [List.length_cons]
        omega
      rw [hM, htail]
      simp [hne, h1, h2, hn, hkeep]
      rw [hkeep] at hne
      simp [hne]
    · have hM := hunc 0 (by simp) (by omega)
      simp only [Nat.zero_add, List.get] at hM
      rw [hM, htail]
      by_cases hin : n + 1 ≤ i ∧ i < n + 1 + xs.length
      · have h2 : n ≤ i ∧ i < n + (x :: xs).length := by
          simp only [List.length_cons]
          omega
        simp [hin, h2]
        try rw [if_pos (by omega)]
      · have h2 : ¬(n ≤ i ∧ i < n + (x :: xs).length) := by
          simp only [List.length_cons]
          omega
        simp [hin, h2]
        omega

end DV

namespace DV

theorem getElem?_set_self {l : List α} {i : Nat} (h : i < l.length)
    (a : α) : (l.set i a)[i]? = some a := by
  rw [List.getElem?_set]
  simp [h]

/-- `_push_undo` only pushes on the undo stack; the other components are
unchanged except for the possible redo clearing. -/
theorem pushUndo_fields (s : MState) (c : Cmd) :
    (pushUndo s c).undoStack = c :: s.undoStack ∧
    (pushUndo s c).items = s.items ∧
    (pushUndo s c).undoing = s.undoing ∧
    (pushUndo s c).redoing = s.redoing ∧
    (pushUndo s c).transactionActive = s.transactionActive ∧
    (pushUndo s c).transactionSnapshot = s.transactionSnapshot := by
  rw [pushUndo]
  split <;> simp

/-- `endTransaction` with a nonempty diff: one batched command is pushed. -/
theorem endTransaction_push {s : MState} (hta : s.transactionActive = true)
    {cs : List (Nat × DVDict)}
    (hcs : (s.transactionSnapshot.filterMap fun pr =>
        match s.items[pr.1]? with
        | some cur => if itemToDict cur ≠ pr.2 then some pr else none
        | none => none) = cs)
    (hne : cs ≠ []) :
    endTransaction s = pushUndo
      { s with transactionActive := false, transactionSnapshot := [] }
      (.txnC cs) := by
  rw [endTransaction, if_neg (by simp [hta])]
  simp only [hcs]
  rw [if_neg (by simp [hne])]

/-- `undo()` with a nonempty stack whose top command applies cleanly. -/
theorem undoOp_step {s : MState} {c : Cmd} {rest : List Cmd}
    (hstack : s.undoStack = c :: rest)
    {items2 : List CItem} {inv : Cmd}
    (hrun : runCmd c s.items = .ok (items2, inv)) :
    undoOp s = .ok (true, { s with
      items := items2
      undoStack := rest
      redoStack := inv :: s.redoStack
      undoing := false }) := by
  rw [undoOp, hstack]
  simp only [hrun]
  rfl

end DV

namespace DV

theorem beginTransaction_comp (s : MState)
    (hta : s.transactionActive = false) :
    (beginTransaction s).items = s.items ∧
    (beginTransaction s).undoStack = s.undoStack ∧
    (beginTransaction s).redoStack = s.redoStack ∧
    (beginTransaction s).transactionActive = true ∧
    (beginTransaction s).transactionSnapshot =
      (s.items.map itemToDict).enum := by
  rw [beginTransaction, if_neg (by simp [hta])]
  exact ⟨rfl, rfl, rfl, rfl, rfl⟩

theorem updateItem_comp (s : MState) (i : Nat) (it : CItem) (p : Props)
    (hit : s.items[i]? = some it) (hta : s.transactionActive = true) :
    (updateItem s (i : Int) p).items =
        s.items.set i (updateItemFields it p).1 ∧
    (updateItem s (i : Int) p).undoStack = s.undoStack ∧
    (updateItem s (i : Int) p).redoStack = s.redoStack ∧
    (updateItem s (i : Int) p).transactionActive = true ∧
    (updateItem s (i : Int) p).transactionSnapshot =
      s.transactionSnapshot := by
  rw [updateItem_txn p hit hta]
  exact ⟨rfl, rfl, rfl, hta, rfl⟩

end DV

/-- C2: bracketing three `updateItem` calls on the same valid index between
`beginTransaction` and `endTransaction`, such that the item\'s serialized
state differs afterwards, pushes exactly one command (the batched
transaction holding the pre-transaction dictionary of that index) onto the
undo stack, and a single subsequent `undo()` returns true and restores the
item sequence — every changed field of the item — to its exact
pre-transaction state. -/
theorem C2_transaction_collapse :
    ∀ (s : DV.MState) (i : Nat) (p1 p2 p3 : DV.Props) (it0 : DV.CItem)
      (s1 : DV.MState),
      s.transactionActive = false →
      s.items[i]? = some it0 →
      DV.isShapeItem it0 = true →
      s1 = DV.updateItem (DV.updateItem (DV.updateItem
          (DV.beginTransaction s) (i : Int) p1) (i : Int) p2) (i : Int) p3 →
      (∀ it3, s1.items[i]? = some it3 →
          DV.itemToDict it3 ≠ DV.itemToDict it0) →
      (DV.endTransaction s1).undoStack =
          DV.Cmd.txnC [(i, DV.itemToDict it0)] :: s.undoStack ∧
      ∃ s3, DV.undoOp (DV.endTransaction s1) = .ok (true, s3) ∧
        s3.items = s.items ∧ s3.undoStack = s.undoStack := by
  intro s i p1 p2 p3 it0 s1 hta hit0 hshape hs1 hch
  have hi : i < s.items.length := by
    by_contra hge
    rw [List.getElem?_eq_none (by omega)] at hit0
    cases hit0
  obtain ⟨hbI, hbU, hbR, hbT, hbS⟩ := DV.beginTransaction_comp s hta
  obtain ⟨h1I, h1U, h1R, h1T, h1S⟩ :=
    DV.updateItem_comp (DV.beginTransaction s) i it0 p1
      (by rw [hbI]; exact hit0) hbT
  obtain ⟨h2I, h2U, h2R, h2T, h2S⟩ :=
    DV.updateItem_comp (DV.updateItem (DV.beginTransaction s) (i : Int) p1)
      i ((DV.updateItemFields it0 p1).1) p2
      (by rw [h1I, hbI]; exact DV.getElem?_set_self hi _) h1T
  obtain ⟨h3I, h3U, h3R, h3T, h3S⟩ :=
    DV.updateItem_comp (DV.updateItem (DV.updateItem
        (DV.beginTransaction s) (i : Int) p1) (i : Int) p2)
      i ((DV.updateItemFields ((DV.updateItemFields it0 p1).1) p2).1) p3
      (by rw [h2I, h1I, hbI]
          exact DV.getElem?_set_self (by simpa using hi) _) h2T
  have hs1I : s1.items = s.items.set i
      ((DV.updateItemFields ((DV.updateItemFields ((DV.updateItemFields
        it0 p1).1) p2).1) p3).1) := by
    rw [hs1, h3I, h2I, h1I, hbI, List.set_set, List.set_set]
  have hs1U : s1.undoStack = s.undoStack := by rw [hs1, h3U, h2U, h1U, hbU]
  have hs1T : s1.transactionActive = true := by rw [hs1]; exact h3T
  have hs1S : s1.transactionSnapshot = (s.items.map DV.itemToDict).enum := by
    rw [hs1, h3S, h2S, h1S, hbS]
  have hM_i : s1.items[i]? = some ((DV.updateItemFields ((DV.updateItemFields
      ((DV.updateItemFields it0 p1).1) p2).1) p3).1) := by
    rw [hs1I]
    exact DV.getElem?_set_self hi _
  have hch3 := hch _ hM_i
  have hget : s.items.get ⟨i, hi⟩ = it0 := by
    have hx := List.getElem?_eq_getElem hi
    rw [hit0] at hx
    exact (Option.some.injEq _ _).mp hx.symm
  have hchanges : (s1.transactionSnapshot.filterMap fun pr =>
      match s1.items[pr.1]? with
      | some cur => if DV.itemToDict cur ≠ pr.2 then some pr else none
      | none => none) = [(i, DV.itemToDict it0)] := by
    rw [hs1S, hs1I]
    have hw := DV.txn_changes_window
      (s.items.set i ((DV.updateItemFields ((DV.updateItemFields
        ((DV.updateItemFields it0 p1).1) p2).1) p3).1))
      i (DV.itemToDict it0) s.items 0
      (fun j hj hne => by
        rw [List.getElem?_set, if_neg (by omega)]
        exact List.getElem?_eq_getElem hj)
      (fun j hj heq => by
        have hji : j = i := by omega
        subst hji
        have hgj : s.items.get ⟨j, hj⟩ = it0 := hget
        refine ⟨_, DV.getElem?_set_self (by omega) _, ?_, ?_⟩
        · rw [hgj]
          exact hch3
        · rw [hgj])
    rw [if_pos (by omega)] at hw
    exact hw
  have hpushT := DV.endTransaction_push hs1T hchanges (by simp)
  have hstack : (DV.pushUndo
      { s1 with transactionActive := false, transactionSnapshot := [] }
      (DV.Cmd.txnC [(i, DV.itemToDict it0)])).undoStack =
      DV.Cmd.txnC [(i, DV.itemToDict it0)] :: s.undoStack := by
    rw [(DV.pushUndo_fields _ _).1]
    show DV.Cmd.txnC [(i, DV.itemToDict it0)] :: s1.undoStack = _
    rw [hs1U]
  constructor
  · rw [hpushT]
    exact hstack
  · have hrun : DV.runCmd (DV.Cmd.txnC [(i, DV.itemToDict it0)])
        (DV.pushUndo
          { s1 with transactionActive := false, transactionSnapshot := [] }
          (DV.Cmd.txnC [(i, DV.itemToDict it0)])).items =
        .ok (s.items, DV.Cmd.txnC [(i, DV.itemToDict
          ((DV.updateItemFields ((DV.updateItemFields ((DV.updateItemFields
            it0 p1).1) p2).1) p3).1))]) := by
      rw [(DV.pushUndo_fields _ _).2.1]
      show DV.runCmd _ s1.items = _
      rw [DV.runCmd, DV.applyTxn]
      simp only [DV.pyGet, hM_i, DV.createItem_itemToDict hshape,
        DV.applyTxn, Bind.bind, Except.bind]
      rw [hs1I, List.set_set, DV.set_self s.items i hi it0 hit0]
    have hres := DV.undoOp_step hstack hrun
    rw [← hpushT] at hres
    exact ⟨_, hres, rfl, rfl⟩

/-- A concrete one-rectangle model state for exercising the transaction
collapse. -/
def c2Rect : DV.RectItem := ⟨0, 0, 5, 5, 1, "#ffffff", 1, "#ffffff", 0⟩

/-- The concrete starting state: one rectangle, both stacks empty, no
transaction. -/
def c2Start : DV.MState :=
  ⟨[DV.CItem.rect c2Rect], [], [], false, false, false, []⟩

/-- First in-transaction update: move the rectangle. -/
def c2P1 : DV.Props := { x := some (.num 3) }

/-- Second in-transaction update: resize the rectangle. -/
def c2P2 : DV.Props := { width := some (.num 7) }

/-- Third in-transaction update: recolor the rectangle. -/
def c2P3 : DV.Props := { fillColor := some (.str "#ff0000") }

/-- The state after the bracketed triple update. -/
def c2After : DV.MState :=
  DV.updateItem (DV.updateItem (DV.updateItem
    (DV.beginTransaction c2Start) ((0 : Nat) : Int) c2P1)
    ((0 : Nat) : Int) c2P2) ((0 : Nat) : Int) c2P3

theorem C2_transaction_collapse_witness :
    (DV.endTransaction c2After).undoStack =
        DV.Cmd.txnC [(0, DV.itemToDict (DV.CItem.rect c2Rect))] ::
          c2Start.undoStack ∧
    ∃ s3, DV.undoOp (DV.endTransaction c2After) = .ok (true, s3) ∧
      s3.items = c2Start.items ∧ s3.undoStack = c2Start.undoStack :=
  C2_transaction_collapse c2Start 0 c2P1 c2P2 c2P3 (DV.CItem.rect c2Rect)
    c2After rfl rfl rfl rfl
    (fun it3 h => by
      have hx : DV.CItem.rect ⟨3, 0, 7, 5, 1, "#ffffff", 1, "#ff0000", 0⟩
          = it3 :=
        Option.some.inj
          ((by decide :
            (some (DV.CItem.rect ⟨3, 0, 7, 5, 1, "#ffffff", 1, "#ff0000", 0⟩)
              : Option DV.CItem) = c2After.items[0]?).trans h)
      rw [← hx]
      decide)

namespace DV

/-- Replay of a command stack over the item sequence alone (the item
trajectory of repeated `undo()` calls, top of the stack first). -/
def replayAll : List CItem → List Cmd → Except PyErr (List CItem)
  | items, [] => .ok items
  | items, c :: rest =>
    match runCmd c items with
    | .error e => .error e
    | .ok r => replayAll r.1 rest

/-- `while model.undo(): pass` — call `undo()` repeatedly until it returns
false (with explicit fuel so the loop is structural). -/
def undoAll : Nat → MState → Except PyErr MState
  | 0, s => .ok s
  | fuel + 1, s =>
    match undoOp s with
    | .error e => .error e
    | .ok r => if r.1 then undoAll fuel r.2 else .ok r.2

/-- An `addItem` or `removeItem` call with its argument data. -/
inductive AROp where
  | add (d : DVDict)
  | remove (i : Int)

/-- One `addItem`/`removeItem` call (both are total: invalid data is
rejected in place). -/
def arStep (s : MState) : AROp → MState
  | .add d => addItem s d
  | .remove i => removeItem s i

/-- A sequence of `addItem`/`removeItem` calls. -/
def runAR : MState → List AROp → MState
  | s, [] => s
  | s, op :: rest => runAR (arStep s op) rest

/-- Re-inserting the element just deleted at its old position restores the
list. -/
theorem insertIdx_eraseIdx_self : ∀ (l : List α) (i : Nat)
    (h : i < l.length), (l.eraseIdx i).insertIdx i l[i] = l
  | _ :: _, 0, _ => rfl
  | a :: t, i + 1, h => by
    have ih := insertIdx_eraseIdx_self t i (by simpa using h)
    show a :: (t.eraseIdx i).insertIdx i ((a :: t)[i + 1]) = a :: t
    rw [List.getElem_cons_succ, ih]

/-- The add/remove round-trip invariant: no replay in progress, every item
is a shape, and replaying the whole undo stack empties the sequence. -/
def C1Inv (s : MState) : Prop :=
  s.undoing = false ∧ s.redoing = false ∧
  (∀ it ∈ s.items, isShapeItem it = true) ∧
  replayAll s.items s.undoStack = .ok []

/-- `addItem` preserves the round-trip invariant: the pushed
`("remove", len)` command deletes exactly the appended item. -/
theorem addItem_C1Inv {s : MState} (h : C1Inv s) (d : DVDict) :
    C1Inv (addItem s d) := by
  obtain ⟨hu, hr, hsh, hrep⟩ := h
  rw [addItem]
  by_cases h1 : d.type = "rectangle"
  · rw [if_pos h1]
    cases hfd : fromDictRect d with
    | error e => exact ⟨hu, hr, hsh, hrep⟩
    | ok r =>
      show C1Inv (if _ then _ else _)
      split
      next =>
        obtain ⟨hpU, hpI, hpu, hpr, h5, h6⟩ := pushUndo_fields
          { s with items := s.items ++ [CItem.rect r] }
          (.removeC s.items.length (itemToDict (CItem.rect r)))
        refine ⟨by rw [hpu]; exact hu, by rw [hpr]; exact hr, ?_, ?_⟩
        · intro it hit
          rw [hpI] at hit
          rcases List.mem_append.mp hit with hmem | hmem
          · exact hsh it hmem
          · rw [List.mem_singleton.mp hmem]
            rfl
        · rw [hpU, hpI, replayAll]
          have hdel : pyDel (s.items ++ [CItem.rect r]) s.items.length =
              .ok s.items := by
            rw [pyDel, if_pos (by simp)]
            rw [List.eraseIdx_append_of_length_le (le_refl _)]
            simp
          simp only [runCmd, hdel, Bind.bind, Except.bind]
          exact hrep
      next hcond => exact absurd (by simp [hu, hr]) hcond
  · rw [if_neg h1]
    by_cases h2 : d.type = "ellipse"
    · rw [if_pos h2]
      cases hfd : fromDictEllipse d with
      | error e => exact ⟨hu, hr, hsh, hrep⟩
      | ok a =>
        show C1Inv (if _ then _ else _)
        split
        next =>
          obtain ⟨hpU, hpI, hpu, hpr, h5, h6⟩ := pushUndo_fields
            { s with items := s.items ++ [CItem.ellipse a] }
            (.removeC s.items.length (itemToDict (CItem.ellipse a)))
          refine ⟨by rw [hpu]; exact hu, by rw [hpr]; exact hr, ?_, ?_⟩
          · intro it hit
            rw [hpI] at hit
            rcases List.mem_append.mp hit with hmem | hmem
            · exact hsh it hmem
            · rw [List.mem_singleton.mp hmem]
              rfl
          · rw [hpU, hpI, replayAll]
            have hdel : pyDel (s.items ++ [CItem.ellipse a])
                s.items.length = .ok s.items := by
              rw [pyDel, if_pos (by simp)]
              rw [List.eraseIdx_append_of_length_le (le_refl _)]
              simp
            simp only [runCmd, hdel, Bind.bind, Except.bind]
            exact hrep
        next hcond => exact absurd (by simp [hu, hr]) hcond
    · rw [if_neg h2]
      exact ⟨hu, hr, hsh, hrep⟩

end DV

namespace DV

/-- `removeItem` preserves the round-trip invariant: the pushed
`("add", i)` command re-creates the deleted item from its dictionary and
re-inserts it at its old index. -/
theorem removeItem_C1Inv {s : MState} (h : C1Inv s) (i : Int) :
    C1Inv (removeItem s i) := by
  obtain ⟨hu, hr, hsh, hrep⟩ := h
  rw [removeItem]
  by_cases hb : 0 ≤ i ∧ i < (s.items.length : Int)
  · rw [if_pos hb]
    have hlt : i.toNat < s.items.length := by omega
    rw [List.getElem?_eq_getElem hlt, hu, hr]
    show C1Inv { pushUndo s (.addC i.toNat (itemToDict s.items[i.toNat]))
      with items :=
        ((pushUndo s (.addC i.toNat
          (itemToDict s.items[i.toNat]))).items.eraseIdx i.toNat) }
    obtain ⟨hpU, hpI, hpu, hpr, h5, h6⟩ := pushUndo_fields s
      (.addC i.toNat (itemToDict s.items[i.toNat]))
    have hmem : s.items[i.toNat] ∈ s.items := List.getElem_mem hlt
    refine ⟨hpu.trans hu, hpr.trans hr, ?_, ?_⟩
    · intro it hit
      rw [hpI] at hit
      exact hsh it (List.mem_of_mem_eraseIdx hit)
    · rw [hpU, hpI, replayAll]
      simp only [runCmd, createItem_itemToDict (hsh _ hmem),
        Bind.bind, Except.bind]
      have hins : pyInsert (s.items.eraseIdx i.toNat) i.toNat
          s.items[i.toNat] = s.items := by
        rw [pyInsert]
        have hmin : min i.toNat (s.items.eraseIdx i.toNat).length =
            i.toNat := by
          rw [List.length_eraseIdx_of_lt hlt]
          omega
        rw [hmin, insertIdx_eraseIdx_self s.items i.toNat hlt]
      rw [hins]
      exact hrep
  · rw [if_neg hb]
    exact ⟨hu, hr, hsh, hrep⟩

/-- Draining the undo stack: when replaying the whole stack empties the
item sequence, repeated `undo()` (with fuel one past the stack depth, so
the loop observes the final `false`) succeeds and ends on an empty item
sequence with an empty stack. -/
theorem undoAll_drain : ∀ (n : Nat) (s : MState),
    s.undoStack.length = n → replayAll s.items s.undoStack = .ok [] →
    ∃ s2, undoAll (n + 1) s = .ok s2 ∧ s2.items = [] ∧
      s2.undoStack = [] := by
  intro n
  induction n with
  | zero =>
    intro s hlen hrep
    have hstack : s.undoStack = [] := List.length_eq_zero.mp hlen
    rw [hstack, replayAll] at hrep
    have hitems : s.items = [] := Except.ok.inj hrep
    have hop : undoOp s = .ok (false, s) := by
      rw [undoOp, hstack]
    refine ⟨s, ?_, hitems, hstack⟩
    rw [undoAll]
    simp only [hop]
    rfl
  | succ n ih =>
    intro s hlen hrep
    obtain ⟨c, rest, hstack⟩ : ∃ c rest, s.undoStack = c :: rest := by
      cases hs : s.undoStack with
      | nil => rw [hs] at hlen; simp at hlen
      | cons c rest => exact ⟨c, rest, rfl⟩
    rw [hstack, replayAll] at hrep
    cases hc : runCmd c s.items with
    | error e =>
      rw [hc] at hrep
      exact absurd hrep (by simp)
    | ok r =>
      obtain ⟨items2, inv⟩ := r
      rw [hc] at hrep
      have hstep := undoOp_step hstack hc
      have hlen2 : rest.length = n := by
        rw [hstack] at hlen
        simpa using hlen
      obtain ⟨s3, hall, hi3, hs3⟩ := ih
        { s with
          items := items2
          undoStack := rest
          redoStack := inv :: s.redoStack
          undoing := false } hlen2 hrep
      refine ⟨s3, ?_, hi3, hs3⟩
      rw [undoAll]
      simp only [hstep]
      exact hall

end DV

namespace DV

/-- Every `addItem`/`removeItem` sequence preserves the round-trip
invariant. -/
theorem runAR_C1Inv : ∀ (ops : List AROp) (s : MState), C1Inv s →
    C1Inv (runAR s ops)
  | [], _, h => h
  | op :: rest, s, h => by
    rw [runAR]
    apply runAR_C1Inv rest
    cases op with
    | add d => exact addItem_C1Inv h d
    | remove i => exact removeItem_C1Inv h i

end DV

/-- C1: for every sequence of `addItem`/`removeItem` calls starting from
the empty model (the valid ones act, the invalid ones are rejected in
place), calling `undo()` repeatedly until it returns false succeeds and
restores the item sequence to exactly its pre-sequence state — the empty
sequence of the fresh model — emptying the undo stack, and the `undo()`
call that stops the loop returns false leaving the state untouched. -/
theorem C1_undo_roundtrip :
    ∀ (ops : List DV.AROp),
      ∃ s2, DV.undoAll
          ((DV.runAR DV.initState ops).undoStack.length + 1)
          (DV.runAR DV.initState ops) = .ok s2 ∧
        s2.items = DV.initState.items ∧ s2.undoStack = [] ∧
        DV.undoOp s2 = .ok (false, s2) := by
  intro ops
  have hinv := DV.runAR_C1Inv ops DV.initState
    ⟨rfl, rfl, by intro it hit; simp [DV.initState] at hit, rfl⟩
  obtain ⟨h1, h2, h3, hrep⟩ := hinv
  obtain ⟨s2, hall, hi, hs⟩ := DV.undoAll_drain _ _ rfl hrep
  refine ⟨s2, hall, by rw [hi]; rfl, hs, ?_⟩
  rw [DV.undoOp, hs]

namespace DV

/-- `_createItem` succeeds on this dictionary (no `float` conversion
raises). -/
def createOk (d : DVDict) : Bool :=
  match createItem d with
  | .ok _ => true
  | .error _ => false

/-- Applicability of one undo/redo command at a given item-sequence
length: `some n2` when replaying it cannot raise and yields length `n2`,
`none` otherwise. -/
def cmdLen (n : Nat) : Cmd → Option Nat
  | .removeC i d => if i < n ∧ createOk d = true then some (n - 1) else none
  | .addC i d => if i ≤ n ∧ createOk d = true then some (n + 1) else none
  | .updateC i d => if i < n ∧ createOk d = true then some n else none
  | .txnC ch =>
    if ch.all (fun pr => decide (pr.1 < n) && createOk pr.2) then some n
    else none
  | .restoreAllC snap =>
    if n = 0 ∧ snap.all createOk = true then some snap.length else none
  | .clearAllC _ => some 0

/-- Every command of a stack applies cleanly in turn, starting from item
count `n`. -/
def chainOk : Nat → List Cmd → Bool
  | _, [] => true
  | n, c :: rest =>
    match cmdLen n c with
    | some n2 => chainOk n2 rest
    | none => false

/-- The no-uncaught-exception invariant: no replay in progress, both
stacks replay cleanly from the current item count, and every snapshotted
dictionary re-creates cleanly. -/
def C9Inv (s : MState) : Prop :=
  s.undoing = false ∧ s.redoing = false ∧
  chainOk s.items.length s.undoStack = true ∧
  chainOk s.items.length s.redoStack = true ∧
  s.transactionSnapshot.all (fun pr => createOk pr.2) = true

/-- A serialized item always re-creates cleanly (a non-shape item's empty
dictionary goes through the ellipse factory's defaults). -/
theorem createOk_itemToDict (it : CItem) : createOk (itemToDict it) = true := by
  cases it <;> rfl

/-- Unfolding a successful `createOk`. -/
theorem createOk_ok {d : DVDict} (h : createOk d = true) :
    ∃ it, createItem d = .ok it := by
  rw [createOk] at h
  cases hc : createItem d with
  | error e => rw [hc] at h; cases h
  | ok it => exact ⟨it, rfl⟩

/-- With no replay in progress, `_push_undo` always leaves the redo stack
empty (it clears a nonempty one and keeps an empty one). -/
theorem pushUndo_redoStack_nil {s : MState} (hu : s.undoing = false)
    (hr : s.redoing = false) (c : Cmd) :
    (pushUndo s c).redoStack = [] := by
  rw [pushUndo]
  split
  · rfl
  next hcond =>
    simp only [hu, hr, Bool.not_false, Bool.and_true] at hcond
    show s.redoStack = []
    simpa using hcond

end DV

namespace DV

/-- The transaction replay loop succeeds when every changed index is in
range and every stored dictionary re-creates; the length is preserved and
the produced redo changes are applicable at the same length. -/
theorem applyTxn_ok : ∀ (ch : List (Nat × DVDict)) (items : List CItem),
    (ch.all fun pr => decide (pr.1 < items.length) && createOk pr.2) =
      true →
    ∃ items2 redo, applyTxn ch items = .ok (items2, redo) ∧
      items2.length = items.length ∧
      (redo.all fun pr => decide (pr.1 < items.length) && createOk pr.2) =
        true := by
  intro ch
  induction ch with
  | nil => intro items h; exact ⟨items, [], rfl, rfl, rfl⟩
  | cons pr rest ih =>
    intro items h
    obtain ⟨i, old⟩ := pr
    rw [List.all_cons, Bool.and_eq_true] at h
    obtain ⟨hhead, htail⟩ := h
    rw [Bool.and_eq_true] at hhead
    have hi : i < items.length := of_decide_eq_true hhead.1
    obtain ⟨it, hcr⟩ := createOk_ok hhead.2
    have hget : pyGet items i = .ok items[i] := by
      rw [pyGet, List.getElem?_eq_getElem hi]
    have htail2 : (rest.all fun pr =>
        decide (pr.1 < (items.set i it).length) && createOk pr.2) =
        true := by
      rw [List.length_set]
      exact htail
    obtain ⟨items3, redoRest, happ, hlen3, hredo⟩ := ih (items.set i it)
      htail2
    refine ⟨items3, (i, itemToDict items[i]) :: redoRest, ?_, ?_, ?_⟩
    · rw [applyTxn]
      simp only [hget, hcr, happ, Bind.bind, Except.bind]
    · rw [hlen3, List.length_set]
    · rw [List.length_set] at hredo
      rw [List.all_cons, Bool.and_eq_true]
      exact ⟨by simp [hi, createOk_itemToDict], hredo⟩

/-- The snapshot re-creation loop of the restore command succeeds when
every dictionary re-creates, producing one item per dictionary. -/
theorem listCreate_ok : ∀ (snap : List DVDict), snap.all createOk = true →
    ∃ items2, listCreate snap = .ok items2 ∧
      items2.length = snap.length := by
  intro snap
  induction snap with
  | nil => intro h; exact ⟨[], rfl, rfl⟩
  | cons d rest ih =>
    intro h
    rw [List.all_cons, Bool.and_eq_true] at h
    obtain ⟨it, hcr⟩ := createOk_ok h.1
    obtain ⟨items2, hrest, hlen⟩ := ih h.2
    refine ⟨it :: items2, ?_, by simp [hlen]⟩
    rw [listCreate]
    simp only [hcr, hrest, Bind.bind, Except.bind]

/-- Every applicable command replays cleanly: the item sequence reaches
the predicted length and the produced inverse is applicable there,
leading back to the current length. -/
theorem runCmd_chain {items : List CItem} {c : Cmd} {n2 : Nat}
    (h : cmdLen items.length c = some n2) :
    ∃ items2 inv, runCmd c items = .ok (items2, inv) ∧
      items2.length = n2 ∧ cmdLen n2 inv = some items.length := by
  cases c with
  | removeC i d =>
    rw [cmdLen] at h
    split at h
    next hc =>
      obtain ⟨hn2⟩ := h
      have hdel : pyDel items i = .ok (items.eraseIdx i) := by
        rw [pyDel, if_pos hc.1]
      refine ⟨items.eraseIdx i, .addC i d, ?_, ?_, ?_⟩
      · rw [runCmd]
        simp only [hdel, Bind.bind, Except.bind]
      · exact List.length_eraseIdx_of_lt hc.1
      · rw [cmdLen, if_pos ⟨by omega, hc.2⟩]
        congr 1
        omega
    next => cases h
  | addC i d =>
    rw [cmdLen] at h
    split at h
    next hc =>
      obtain ⟨hn2⟩ := h
      obtain ⟨it, hcr⟩ := createOk_ok hc.2
      refine ⟨pyInsert items i it, .removeC i d, ?_, ?_, ?_⟩
      · rw [runCmd]
        simp only [hcr, Bind.bind, Except.bind]
      · rw [pyInsert, List.length_insertIdx _ _ (min_le_right _ _)]
      · rw [cmdLen, if_pos ⟨by omega, hc.2⟩]
        exact congrArg some (by omega)
    next => cases h
  | updateC i d =>
    rw [cmdLen] at h
    split at h
    next hc =>
      obtain ⟨hn2⟩ := h
      obtain ⟨it, hcr⟩ := createOk_ok hc.2
      have hget : pyGet items i = .ok items[i] := by
        rw [pyGet, List.getElem?_eq_getElem hc.1]
      refine ⟨items.set i it, .updateC i (itemToDict items[i]), ?_, ?_, ?_⟩
      · rw [runCmd]
        simp only [hget, hcr, Bind.bind, Except.bind]
      · rw [List.length_set]
      · rw [cmdLen, if_pos ⟨by omega, createOk_itemToDict _⟩]
    next => cases h
  | txnC ch =>
    rw [cmdLen] at h
    split at h
    next hc =>
      obtain ⟨hn2⟩ := h
      obtain ⟨items2, redo, happ, hlen2, hredo⟩ := applyTxn_ok ch items hc
      refine ⟨items2, .txnC redo, ?_, by omega, ?_⟩
      · rw [runCmd]
        simp only [happ, Bind.bind, Except.bind]
      · rw [cmdLen]
        rw [if_pos hredo]
    next => cases h
  | restoreAllC snap =>
    rw [cmdLen] at h
    split at h
    next hc =>
      obtain ⟨hn2⟩ := h
      obtain ⟨items2, hlc, hlen2⟩ := listCreate_ok snap hc.2
      refine ⟨items2, .clearAllC (items.map itemToDict), ?_, by omega, ?_⟩
      · rw [runCmd]
        simp only [hlc, Bind.bind, Except.bind]
      · rw [cmdLen]
        congr 1
        omega
    next => cases h
  | clearAllC d =>
    rw [cmdLen] at h
    obtain ⟨hn2⟩ := h
    refine ⟨[], .restoreAllC (items.map itemToDict), rfl, rfl, ?_⟩
    have hall : (items.map itemToDict).all createOk = true := by
      rw [List.all_eq_true]
      intro d2 hd2
      obtain ⟨it, hmem, hit⟩ := List.mem_map.mp hd2
      rw [← hit]
      exact createOk_itemToDict it
    rw [cmdLen, if_pos ⟨rfl, hall⟩]
    rw [List.length_map]

end DV

namespace DV

/-- Extending a clean chain by one applicable command. -/
theorem chainOk_cons {n : Nat} {c : Cmd} {rest : List Cmd} {n2 : Nat}
    (h1 : cmdLen n c = some n2) (h2 : chainOk n2 rest = true) :
    chainOk n (c :: rest) = true := by
  rw [chainOk, h1]
  exact h2

/-- `addItem` preserves the no-exception invariant. -/
theorem addItem_C9Inv {s : MState} (h : C9Inv s) (d : DVDict) :
    C9Inv (addItem s d) := by
  obtain ⟨hu, hr, hcu, hcr, hsn⟩ := h
  rw [addItem]
  by_cases h1 : d.type = "rectangle"
  · rw [if_pos h1]
    cases hfd : fromDictRect d with
    | error e => exact ⟨hu, hr, hcu, hcr, hsn⟩
    | ok r =>
      show C9Inv (if _ then _ else _)
      split
      next =>
        obtain ⟨hpU, hpI, hpu, hpr, hpt, hps⟩ := pushUndo_fields
          { s with items := s.items ++ [CItem.rect r] }
          (.removeC s.items.length (itemToDict (CItem.rect r)))
        refine ⟨by rw [hpu]; exact hu, by rw [hpr]; exact hr, ?_, ?_,
          by rw [hps]; exact hsn⟩
        · rw [hpU, hpI]
          refine chainOk_cons ?_ hcu
          rw [cmdLen, if_pos ⟨by simp, createOk_itemToDict _⟩]
          exact congrArg some (by simp)
        · rw [hpI, pushUndo_redoStack_nil
            (show ({ s with items := s.items ++ [CItem.rect r] } :
              MState).undoing = false from hu)
            (show ({ s with items := s.items ++ [CItem.rect r] } :
              MState).redoing = false from hr) _]
          rfl
      next hcond => exact absurd (by simp [hu, hr]) hcond
  · rw [if_neg h1]
    by_cases h2 : d.type = "ellipse"
    · rw [if_pos h2]
      cases hfd : fromDictEllipse d with
      | error e => exact ⟨hu, hr, hcu, hcr, hsn⟩
      | ok a =>
        show C9Inv (if _ then _ else _)
        split
        next =>
          obtain ⟨hpU, hpI, hpu, hpr, hpt, hps⟩ := pushUndo_fields
            { s with items := s.items ++ [CItem.ellipse a] }
            (.removeC s.items.length (itemToDict (CItem.ellipse a)))
          refine ⟨by rw [hpu]; exact hu, by rw [hpr]; exact hr, ?_, ?_,
            by rw [hps]; exact hsn⟩
          · rw [hpU, hpI]
            refine chainOk_cons ?_ hcu
            rw [cmdLen, if_pos ⟨by simp, createOk_itemToDict _⟩]
            exact congrArg some (by simp)
          · rw [hpI, pushUndo_redoStack_nil
              (show ({ s with items := s.items ++ [CItem.ellipse a] } :
                MState).undoing = false from hu)
              (show ({ s with items := s.items ++ [CItem.ellipse a] } :
                MState).redoing = false from hr) _]
            rfl
        next hcond => exact absurd (by simp [hu, hr]) hcond
    · rw [if_neg h2]
      exact ⟨hu, hr, hcu, hcr, hsn⟩

/-- `removeItem` preserves the no-exception invariant. -/
theorem removeItem_C9Inv {s : MState} (h : C9Inv s) (i : Int) :
    C9Inv (removeItem s i) := by
  obtain ⟨hu, hr, hcu, hcr, hsn⟩ := h
  rw [removeItem]
  by_cases hb : 0 ≤ i ∧ i < (s.items.length : Int)
  · rw [if_pos hb]
    have hlt : i.toNat < s.items.length := by omega
    rw [List.getElem?_eq_getElem hlt, hu, hr]
    show C9Inv { pushUndo s (.addC i.toNat (itemToDict s.items[i.toNat]))
      with items :=
        ((pushUndo s (.addC i.toNat
          (itemToDict s.items[i.toNat]))).items.eraseIdx i.toNat) }
    obtain ⟨hpU, hpI, hpu, hpr, hpt, hps⟩ := pushUndo_fields s
      (.addC i.toNat (itemToDict s.items[i.toNat]))
    refine ⟨hpu.trans hu, hpr.trans hr, ?_, ?_, by rw [hps]; exact hsn⟩
    · rw [hpU, hpI, List.length_eraseIdx_of_lt hlt]
      refine chainOk_cons ?_ hcu
      rw [cmdLen, if_pos ⟨by omega, createOk_itemToDict _⟩]
      exact congrArg some (by omega)
    · rw [hpI, pushUndo_redoStack_nil hu hr]
      rfl
  · rw [if_neg hb]
    exact ⟨hu, hr, hcu, hcr, hsn⟩

end DV

namespace DV

/-- `updateItem` preserves the no-exception invariant (the item count
never changes; an undo entry is pushed only for a clean non-transaction
update and is applicable in place). -/
theorem updateItem_C9Inv {s : MState} (h : C9Inv s) (i : Int) (p : Props) :
    C9Inv (updateItem s i p) := by
  obtain ⟨hu, hr, hcu, hcr, hsn⟩ := h
  rw [updateItem]
  by_cases hb : 0 ≤ i ∧ i < (s.items.length : Int)
  · rw [if_pos hb]
    have hlt : i.toNat < s.items.length := by omega
    rw [List.getElem?_eq_getElem hlt]
    show C9Inv (if (updateItemFields s.items[i.toNat] p).2 = true
      then { s with items :=
        (s.items.set i.toNat (updateItemFields s.items[i.toNat] p).1) }
      else if (!s.undoing && !s.redoing && !s.transactionActive) = true
        then pushUndo { s with items :=
          (s.items.set i.toNat (updateItemFields s.items[i.toNat] p).1) }
          (.updateC i.toNat (itemToDict s.items[i.toNat]))
        else { s with items :=
          (s.items.set i.toNat (updateItemFields s.items[i.toNat] p).1) })
    split
    next =>
      exact ⟨hu, hr, by rw [List.length_set]; exact hcu,
        by rw [List.length_set]; exact hcr, hsn⟩
    next =>
      split
      next =>
        obtain ⟨hpU, hpI, hpu, hpr, hpt, hps⟩ := pushUndo_fields
          { s with items :=
            (s.items.set i.toNat (updateItemFields s.items[i.toNat] p).1) }
          (.updateC i.toNat (itemToDict s.items[i.toNat]))
        refine ⟨by rw [hpu]; exact hu, by rw [hpr]; exact hr, ?_, ?_,
          by rw [hps]; exact hsn⟩
        · rw [hpU, hpI, List.length_set]
          refine chainOk_cons ?_ hcu
          rw [cmdLen, if_pos ⟨by omega, createOk_itemToDict _⟩]
        · rw [hpI, List.length_set, pushUndo_redoStack_nil
            (show ({ s with items := (s.items.set i.toNat
              (updateItemFields s.items[i.toNat] p).1) } :
              MState).undoing = false from hu)
            (show ({ s with items := (s.items.set i.toNat
              (updateItemFields s.items[i.toNat] p).1) } :
              MState).redoing = false from hr) _]
          rfl
      next =>
        exact ⟨hu, hr, by rw [List.length_set]; exact hcu,
          by rw [List.length_set]; exact hcr, hsn⟩
  · rw [if_neg hb]
    exact ⟨hu, hr, hcu, hcr, hsn⟩

/-- `clear` preserves the no-exception invariant: the pushed restore
command re-creates every cleared item from length zero. -/
theorem clearItems_C9Inv {s : MState} (h : C9Inv s) :
    C9Inv (clearItems s) := by
  obtain ⟨hu, hr, hcu, hcr, hsn⟩ := h
  rw [clearItems]
  split
  next =>
    obtain ⟨hpU, hpI, hpu, hpr, hpt, hps⟩ := pushUndo_fields s
      (.restoreAllC (s.items.map itemToDict))
    refine ⟨by rw [hpu]; exact hu, by rw [hpr]; exact hr, ?_, ?_,
      by rw [hps]; exact hsn⟩
    · rw [hpU]
      refine chainOk_cons ?_ hcu
      have hall : (s.items.map itemToDict).all createOk = true := by
        rw [List.all_eq_true]
        intro d2 hd2
        obtain ⟨it, hmem, hit⟩ := List.mem_map.mp hd2
        rw [← hit]
        exact createOk_itemToDict it
      rw [cmdLen, if_pos ⟨rfl, hall⟩]
      exact congrArg some (by rw [List.length_map])
    · rw [pushUndo_redoStack_nil hu hr]
      rfl
  next hcond =>
    have hempty : s.items = [] := by
      simp only [hu, hr, Bool.not_false, Bool.true_and] at hcond
      simpa using hcond
    have hn : s.items.length = 0 := by rw [hempty]; rfl
    rw [hn] at hcu hcr
    exact ⟨hu, hr, hcu, hcr, hsn⟩

end DV

namespace DV

/-- `beginTransaction` preserves the no-exception invariant: every
snapshotted dictionary is an `_itemToDict` output and so re-creates. -/
theorem beginTransaction_C9Inv {s : MState} (h : C9Inv s) :
    C9Inv (beginTransaction s) := by
  obtain ⟨hu, hr, hcu, hcr, hsn⟩ := h
  rw [beginTransaction]
  split
  next => exact ⟨hu, hr, hcu, hcr, hsn⟩
  next =>
    refine ⟨hu, hr, hcu, hcr, ?_⟩
    show ((s.items.map itemToDict).enum.all fun pr => createOk pr.2) = true
    rw [List.all_eq_true]
    intro pr hpr
    have hmem : pr.2 ∈ s.items.map itemToDict :=
      List.snd_mem_of_mem_enum hpr
    obtain ⟨it, hmem2, hit⟩ := List.mem_map.mp hmem
    rw [← hit]
    exact createOk_itemToDict it

/-- `endTransaction` preserves the no-exception invariant: the batched
changes all carry in-range indices (the diff skips out-of-range ones) and
snapshotted, re-creatable dictionaries. -/
theorem endTransaction_C9Inv {s : MState} (h : C9Inv s) :
    C9Inv (endTransaction s) := by
  obtain ⟨hu, hr, hcu, hcr, hsn⟩ := h
  rw [endTransaction]
  split
  next => exact ⟨hu, hr, hcu, hcr, hsn⟩
  next =>
    show C9Inv (if (s.transactionSnapshot.filterMap fun pr =>
        match s.items[pr.1]? with
        | some cur => if itemToDict cur ≠ pr.2 then some pr else none
        | none => none).isEmpty = true
      then { s with transactionActive := false, transactionSnapshot := [] }
      else pushUndo { s with
          transactionActive := false
          transactionSnapshot := [] }
        (.txnC (s.transactionSnapshot.filterMap fun pr =>
          match s.items[pr.1]? with
          | some cur => if itemToDict cur ≠ pr.2 then some pr else none
          | none => none)))
    split
    next => exact ⟨hu, hr, hcu, hcr, rfl⟩
    next hne =>
      obtain ⟨hpU, hpI, hpu, hpr, hpt, hps⟩ := pushUndo_fields
        { s with transactionActive := false, transactionSnapshot := [] }
        (.txnC (s.transactionSnapshot.filterMap fun pr =>
          match s.items[pr.1]? with
          | some cur => if itemToDict cur ≠ pr.2 then some pr else none
          | none => none))
      refine ⟨by rw [hpu]; exact hu, by rw [hpr]; exact hr, ?_, ?_,
        by rw [hps]; rfl⟩
      · rw [hpU, hpI]
        refine chainOk_cons ?_ hcu
        rw [cmdLen, if_pos ?_]
        rw [List.all_eq_true]
        intro pr hpr
        obtain ⟨a, ha, hfa⟩ := List.mem_filterMap.mp hpr
        cases hsome : s.items[a.1]? with
        | none => rw [hsome] at hfa; cases hfa
        | some cur =>
          simp only [hsome] at hfa
          split at hfa
          next =>
            have hapr : a = pr := Option.some.inj hfa
            have hlt : a.1 < s.items.length := by
              by_contra hge
              rw [List.getElem?_eq_none (by omega)] at hsome
              cases hsome
            rw [← hapr, Bool.and_eq_true]
            exact ⟨decide_eq_true hlt,
              List.all_eq_true.mp hsn a ha⟩
          next => cases hfa
      · rw [hpI, pushUndo_redoStack_nil
          (show ({ s with transactionActive := false, transactionSnapshot := [] } : MState).undoing = false from hu)
          (show ({ s with transactionActive := false, transactionSnapshot := [] } : MState).redoing = false from hr) _]
        rfl

end DV

namespace DV

/-- `redo()` with a nonempty stack whose top command applies cleanly (the
replay flag disables the redo-clearing of `_push_undo`). -/
theorem redoOp_step {s : MState} {c : Cmd} {rest : List Cmd}
    (hstack : s.redoStack = c :: rest)
    {items2 : List CItem} {inv : Cmd}
    (hrun : runCmd c s.items = .ok (items2, inv)) :
    redoOp s = .ok (true, { s with
      items := items2
      undoStack := inv :: s.undoStack
      redoStack := rest
      redoing := false }) := by
  rw [redoOp, hstack]
  simp only [hrun]
  rw [pushUndo, if_neg (by simp)]

/-- `undo()` never raises from an invariant state and preserves the
invariant. -/
theorem undoOp_C9Inv {s : MState} (h : C9Inv s) :
    ∃ b s2, undoOp s = .ok (b, s2) ∧ C9Inv s2 := by
  obtain ⟨hu, hr, hcu, hcr, hsn⟩ := h
  cases hstack : s.undoStack with
  | nil =>
    refine ⟨false, s, ?_, hu, hr, hcu, hcr, hsn⟩
    rw [undoOp, hstack]
  | cons c rest =>
    rw [hstack, chainOk] at hcu
    cases hcl : cmdLen s.items.length c with
    | none => rw [hcl] at hcu; cases hcu
    | some n2 =>
      rw [hcl] at hcu
      obtain ⟨items2, inv, hrun, hlen2, hinv⟩ := runCmd_chain hcl
      refine ⟨true, _, undoOp_step hstack hrun, rfl, hr, ?_, ?_, hsn⟩
      · show chainOk items2.length rest = true
        rw [hlen2]
        exact hcu
      · show chainOk items2.length (inv :: s.redoStack) = true
        refine chainOk_cons ?_ hcr
        rw [hlen2]
        exact hinv

/-- `redo()` never raises from an invariant state and preserves the
invariant. -/
theorem redoOp_C9Inv {s : MState} (h : C9Inv s) :
    ∃ b s2, redoOp s = .ok (b, s2) ∧ C9Inv s2 := by
  obtain ⟨hu, hr, hcu, hcr, hsn⟩ := h
  cases hstack : s.redoStack with
  | nil =>
    refine ⟨false, s, ?_, hu, hr, hcu, hcr, hsn⟩
    rw [redoOp, hstack]
  | cons c rest =>
    rw [hstack, chainOk] at hcr
    cases hcl : cmdLen s.items.length c with
    | none => rw [hcl] at hcr; cases hcr
    | some n2 =>
      rw [hcl] at hcr
      obtain ⟨items2, inv, hrun, hlen2, hinv⟩ := runCmd_chain hcl
      refine ⟨true, _, redoOp_step hstack hrun, hu, rfl, ?_, ?_, hsn⟩
      · show chainOk items2.length (inv :: s.undoStack) = true
        refine chainOk_cons ?_ hcu
        rw [hlen2]
        exact hinv
      · show chainOk items2.length rest = true
        rw [hlen2]
        exact hcr

/-- Every public call succeeds from an invariant state and preserves the
invariant. -/
theorem opStep_C9Inv {s : MState} (h : C9Inv s) (op : Op) :
    ∃ s2, opStep s op = .ok s2 ∧ C9Inv s2 := by
  cases op with
  | add d => exact ⟨addItem s d, rfl, addItem_C9Inv h d⟩
  | remove i => exact ⟨removeItem s i, rfl, removeItem_C9Inv h i⟩
  | update i p => exact ⟨updateItem s i p, rfl, updateItem_C9Inv h i p⟩
  | clear => exact ⟨clearItems s, rfl, clearItems_C9Inv h⟩
  | undo =>
    obtain ⟨b, s2, hop, h2⟩ := undoOp_C9Inv h
    refine ⟨s2, ?_, h2⟩
    show (undoOp s).map Prod.snd = .ok s2
    rw [hop]
    rfl
  | redo =>
    obtain ⟨b, s2, hop, h2⟩ := redoOp_C9Inv h
    refine ⟨s2, ?_, h2⟩
    show (redoOp s).map Prod.snd = .ok s2
    rw [hop]
    rfl
  | beginT => exact ⟨beginTransaction s, rfl, beginTransaction_C9Inv h⟩
  | endT => exact ⟨endTransaction s, rfl, endTransaction_C9Inv h⟩

/-- Any call sequence from an invariant state runs to completion. -/
theorem runOps_C9Inv : ∀ (ops : List Op) (s : MState), C9Inv s →
    ∃ s2, runOps s ops = .ok s2 ∧ C9Inv s2
  | [], s, h => ⟨s, rfl, h⟩
  | op :: rest, s, h => by
    obtain ⟨s2, hop, h2⟩ := opStep_C9Inv h op
    obtain ⟨s3, hrun, h3⟩ := runOps_C9Inv rest s2 h2
    refine ⟨s3, ?_, h3⟩
    rw [runOps]
    simp only [hop, Bind.bind, Except.bind]
    exact hrun

end DV

/-- C9: no public model operation — `addItem`, `removeItem`, `updateItem`,
`clear`, `undo`, `redo`, `beginTransaction`, `endTransaction` — raises an
uncaught exception, for any sequence of calls with arbitrary
possibly-malformed argument data starting from a fresh model: every such
sequence runs to completion (invalid inputs are rejected in place, and
stack replay during `undo`/`redo` — the one path whose `try/finally` has
no `except` — never actually raises, because both stacks only ever hold
commands that apply cleanly). -/
theorem C9_no_uncaught_exception :
    ∀ (ops : List DV.Op), ∃ s, DV.runOps DV.initState ops = .ok s := by
  intro ops
  obtain ⟨s2, hrun, h2⟩ := DV.runOps_C9Inv ops DV.initState
    ⟨rfl, rfl, rfl, rfl, rfl⟩
  exact ⟨s2, hrun⟩
